import Mathlib

/-!
# rcgpar: the MPI optimizer `rcg_optl_mpi` (src/src/rcg_mpi.cpp)

A shallow embedding of `rcg_optl_mpi` as a lock-step run of `ntasks` ranks.

* Buffers (`std::vector<double>`, the storage of `Matrix<double>`) are maps from
  the flat index to the stored value, together with their sizes.
* `double` and `long double` are read as exact numbers of a linearly ordered
  field; the theorems about `exp` and `log` are stated over the reals.
* The collectives (`MPI_Bcast`, `MPI_Scatter`, `MPI_Gather`, `MPI_Allreduce`)
  are pure functions of the buffers of all ranks.
* `Matrix.hpp`, `rcg_util.hpp` and `rcg.hpp` are absent; what `rcg_optl_mpi` calls
  from them is modelled from the specification and is marked as such.
-/

namespace RcgMpi

open Finset

/-! ## Data model -/

/-- Modelled from the spec: `std::vector<double>` as a size and the stored values. -/
structure Vec (α : Type) where
  size : Nat
  dat : Nat → α

/-- Modelled from the spec: `Matrix<double>` of Matrix.hpp (absent), a dense
row-major `rows` x `cols` buffer; `mat` is the flat storage. -/
structure Matrix (α : Type) where
  rows : Nat
  cols : Nat
  mat : Nat → α

/-- Modelled from the spec: the scalar functions behind the numerical kernels of
rcg_util.hpp (absent): `std::exp`, `std::log`, `digamma`, `lgamma`, and the
function `calc_bound_const(log_times_observed, alpha0)`. -/
structure Kernels (α : Type) where
  exp : α → α
  log : α → α
  digamma : α → α
  lgamma : α → α
  calc_bound_const : Vec α → Vec α → α

section Model

variable {α : Type} [LinearOrderedField α]

/-- Modelled from the spec: the kernels as the specification states them, over `exp`,
`log`, the gamma function `Γ` and its derivative `dΓ`: `digamma` is `ψ = Γ'/Γ`
(`d/dx ln Γ`), `lgamma` is `ln Γ`, and `calc_bound_const` is the prior term
`ln Γ(Σ_k α0_k) − Σ_k ln Γ(α0_k)`. -/
def kernelsOf (exp log Γ dΓ : α → α) : Kernels α :=
  { exp := exp
    log := log
    digamma := fun x => dΓ x / Γ x
    lgamma := fun x => log (Γ x)
    calc_bound_const := fun _ alpha0 =>
      log (Γ (∑ k ∈ range alpha0.size, alpha0.dat k))
        - ∑ k ∈ range alpha0.size, log (Γ (alpha0.dat k)) }

/-- Modelled from the spec: `Matrix(rows, cols, v)`, every entry set to `v`. -/
def Matrix.fill (rows cols : Nat) (v : α) : Matrix α :=
  ⟨rows, cols, fun _ => v⟩

/-- Modelled from the spec: `operator()(i, j)` of the row-major matrix. -/
def Matrix.get (m : Matrix α) (i j : Nat) : α :=
  m.mat (i * m.cols + j)

/-- Modelled from the spec: elementwise `a += b`. -/
def Matrix.add (a b : Matrix α) : Matrix α :=
  ⟨a.rows, a.cols, fun i => a.mat i + b.mat i⟩

/-- Modelled from the spec: elementwise `a -= b`. -/
def Matrix.sub (a b : Matrix α) : Matrix α :=
  ⟨a.rows, a.cols, fun i => a.mat i - b.mat i⟩

/-- Modelled from the spec: `a *= c` for a scalar `c`. -/
def Matrix.scale (a : Matrix α) (c : α) : Matrix α :=
  ⟨a.rows, a.cols, fun i => a.mat i * c⟩

/-- Modelled from the spec: `M.exp_right_multiply(v, out)` sets
`out[k] = Σ_n exp(M[k,n] + v[n])` for every row `k` of `M`. -/
def Matrix.exp_right_multiply (F : Kernels α) (m : Matrix α) (v out : Vec α) : Vec α :=
  ⟨out.size, fun k =>
    if k < m.rows then ∑ n ∈ range m.cols, F.exp (m.get k n + v.dat n) else out.dat k⟩

/-- Modelled from the spec: `add_alpha0_to_Nk(alpha0, N_k)`, `N_k[k] += alpha0[k]`. -/
def add_alpha0_to_Nk (alpha0 N_k : Vec α) : Vec α :=
  ⟨N_k.size, fun k => N_k.dat k + alpha0.dat k⟩

/-- Running maximum of `f 0, ..., f k`. -/
def maxUpTo (f : Nat → α) : Nat → α
  | 0 => f 0
  | k + 1 => max (maxUpTo f k) (f (k + 1))

/-- Modelled from the spec: step 1 of `logsumexp`, `m_n = max_k G[k,n]`. -/
def colmax (G : Matrix α) (n : Nat) : α :=
  maxUpTo (fun k => G.get k n) (G.rows - 1)

/-- Modelled from the spec: step 2 of `logsumexp`,
`s_n = m_n + ln Σ_k exp(G[k,n] − m_n)`. -/
def colshift (F : Kernels α) (G : Matrix α) (n : Nat) : α :=
  colmax G n + F.log (∑ k ∈ range G.rows, F.exp (G.get k n - colmax G n))

/-- Modelled from the spec: the matrix left by `logsumexp(G, m_out)`,
`G[k,n] ← G[k,n] − s_n`. -/
def logsumexp (F : Kernels α) (G : Matrix α) : Matrix α :=
  ⟨G.rows, G.cols, fun i =>
    if i < G.rows * G.cols then G.mat i - colshift F G (i % G.cols) else G.mat i⟩

/-- Modelled from the spec: the vector left in `m_out` by `logsumexp(G, m_out)`,
`m_out[n] = m_n`. -/
def logsumexp_max (G : Matrix α) (m_out : Vec α) : Vec α :=
  ⟨m_out.size, fun n => if n < G.cols then colmax G n else m_out.dat n⟩

/-- Modelled from the spec: `revert_step(γ, oldm)`, `γ[k,n] += oldm[n]`. -/
def revert_step (γ : Matrix α) (oldm : Vec α) : Matrix α :=
  ⟨γ.rows, γ.cols, fun i =>
    if i < γ.rows * γ.cols then γ.mat i + oldm.dat (i % γ.cols) else γ.mat i⟩

/-- Modelled from the spec: the unprojected gradient of `mixt_negnatgrad`,
`ψ(N_k[k]) + logl[k,n] − γ[k,n]`. -/
def negnatgrad_raw (F : Kernels α) (γ : Matrix α) (N_k : Vec α) (logl : Matrix α)
    (k n : Nat) : α :=
  F.digamma (N_k.dat k) + logl.get k n - γ.get k n

/-- Modelled from the spec: the responsibility-weighted column mean
`c_n = Σ_k exp(γ[k,n]) · step_out[k,n]` of `mixt_negnatgrad`. -/
def negnatgrad_mean (F : Kernels α) (γ : Matrix α) (N_k : Vec α) (logl : Matrix α)
    (n : Nat) : α :=
  ∑ k ∈ range γ.rows, F.exp (γ.get k n) * negnatgrad_raw F γ N_k logl k n

/-- Modelled from the spec: the matrix `step_out` left by
`mixt_negnatgrad(γ, N_k, logl, step_out)`. -/
def mixt_negnatgrad_step (F : Kernels α) (γ : Matrix α) (N_k : Vec α) (logl : Matrix α)
    (step_out : Matrix α) : Matrix α :=
  ⟨step_out.rows, step_out.cols, fun i =>
    if i < γ.rows * γ.cols then
      negnatgrad_raw F γ N_k logl (i / γ.cols) (i % γ.cols)
        - negnatgrad_mean F γ N_k logl (i % γ.cols)
    else step_out.mat i⟩

/-- Modelled from the spec: the value returned by `mixt_negnatgrad`,
`Σ_{k,n} exp(γ[k,n]) · step_out[k,n]^2`. -/
def mixt_negnatgrad (F : Kernels α) (γ : Matrix α) (N_k : Vec α) (logl : Matrix α)
    (step_out : Matrix α) : α :=
  ∑ k ∈ range γ.rows, ∑ n ∈ range γ.cols,
    F.exp (γ.get k n) * ((mixt_negnatgrad_step F γ N_k logl step_out).get k n) ^ 2

/-- Modelled from the spec: `ELBO_rcg_mat(logl, γ, log_times_observed, alpha0, N_k, out)`
adds the data- and γ-dependent part of the ELBO to `out`. -/
def ELBO_rcg_mat (F : Kernels α) (logl γ : Matrix α) (log_times_observed alpha0 N_k : Vec α)
    (out : α) : α :=
  out
    + (∑ k ∈ range γ.rows, ∑ n ∈ range γ.cols,
        F.exp (γ.get k n + log_times_observed.dat n) * (logl.get k n - γ.get k n))
    + (∑ k ∈ range γ.rows, (alpha0.dat k - N_k.dat k) * F.digamma (N_k.dat k))
    + (∑ k ∈ range γ.rows, F.lgamma (N_k.dat k))

/-! ## Collectives -/

/-- What `MPI_Scatter(sendbuf, count, ..., recvbuf, count, ..., 0, comm)` leaves in the
receive buffer of rank `r`: the `r`-th block of `count` values of the root's buffer. -/
def MPI_Scatter (sendbuf : Nat → α) (count : Nat) (recvbuf : Nat → α) (r : Nat) : Nat → α :=
  fun i => if i < count then sendbuf (r * count + i) else recvbuf i

/-- What `MPI_Gather(sendbuf, count, ..., recvbuf, count, ..., 0, comm)` leaves in the
root's receive buffer: the blocks of the ranks one after the other. -/
def MPI_Gather (sendbufs : Nat → Nat → α) (count ntasks : Nat) (recvbuf : Nat → α) :
    Nat → α :=
  fun i => if i < ntasks * count then sendbufs (i / count) (i % count) else recvbuf i

/-- What `MPI_Allreduce(..., MPI_SUM, comm)` delivers to every rank. -/
def MPI_Allreduce (vals : Nat → α) (ntasks : Nat) : α :=
  ∑ r ∈ range ntasks, vals r

/-! ## `rcg_optl_mpi`: dimensions (lines 19-30) -/

/-- Line 22 and 25: `uint16_t n_groups = logl_full.get_rows()`, broadcast. -/
def n_groups (rows : Nat) : Nat := rows % 65536

/-- Line 23 and 26: `uint32_t n_obs = log_times_observed_full.size()`, broadcast. -/
def n_obs (size : Nat) : Nat := size % 4294967296

/-- Line 29: `uint16_t n_obs_per_task = n_obs/ntasks`. -/
def n_obs_per_task (n_obs ntasks : Nat) : Nat := (n_obs / ntasks) % 65536

/-- Line 30: `uint32_t n_values_per_task = n_obs_per_task*n_groups`. -/
def n_values_per_task (n_obs ntasks n_groups : Nat) : Nat :=
  (n_obs_per_task n_obs ntasks * n_groups) % 4294967296

/-! ## `rcg_optl_mpi`: state of one rank -/

/-- The variables of one rank of `rcg_optl_mpi`. -/
structure Rank (α : Type) where
  n_groups : Nat
  n_obs : Nat
  n_obs_per_task : Nat
  n_values_per_task : Nat
  log_times_observed : Vec α
  logl : Matrix α
  gamma_Z_partial : Matrix α
  step_partial : Matrix α
  oldstep_partial : Matrix α
  oldm : Vec α
  oldnorm : α
  bound : α
  bound_const : α
  didreset : Bool
  N_k : Vec α
  gamma_Z : Matrix α
  newnorm : α
  beta_FR : α
  oldbound : α
  returned : Option Nat

/-- Lines 19-64: the state of rank `r` when it enters the loop. Rank 0 reads the
dimensions of its inputs and broadcasts them; the inputs are scattered in blocks of
`n_obs/ntasks` and `n_values_per_task` values; rank 0 computes `bound_const` from its
own `log_times_observed` and broadcasts it. -/
def setup (F : Kernels α) (ntasks : Nat) (logl_full : Matrix α)
    (log_times_observed_full alpha0 : Vec α) (r : Nat) : Rank α :=
  let K := n_groups logl_full.rows
  let N := n_obs log_times_observed_full.size
  let W := n_obs_per_task N ntasks
  let V := n_values_per_task N ntasks K
  let lto (q : Nat) : Vec α :=
    ⟨N / ntasks, MPI_Scatter log_times_observed_full.dat (N / ntasks) (fun _ => 0) q⟩
  let gamma_Z_partial : Matrix α := Matrix.fill K W (F.log (1 / (K : α)))
  { n_groups := K
    n_obs := N
    n_obs_per_task := W
    n_values_per_task := V
    log_times_observed := lto r
    logl := ⟨K, W, MPI_Scatter logl_full.mat V (fun _ => 0) r⟩
    gamma_Z_partial := gamma_Z_partial
    step_partial := Matrix.fill K W 0
    oldstep_partial := Matrix.fill K W 0
    oldm := ⟨N, fun _ => 0⟩
    oldnorm := 1
    bound := -100000
    bound_const := F.calc_bound_const (lto 0) alpha0
    didreset := false
    N_k := add_alpha0_to_Nk alpha0
      ( gamma_Z_partial.exp_right_multiply F (lto r) ⟨alpha0.size, fun _ => 0⟩)
    gamma_Z := if r = 0 then Matrix.fill K N (F.log (1 / (K : α))) else ⟨0, 0, fun _ => 0⟩
    newnorm := 0
    beta_FR := 0
    oldbound := 0
    returned := none }

/-! ## `rcg_optl_mpi`: the loop body -/

/-- Lines 68-82: gradient, all-reduced norm, Fletcher-Reeves momentum and the step. -/
def take_step (F : Kernels α) (ntasks : Nat) (w : Nat → Rank α) (r : Nat) : Rank α :=
  let s := w r
  let step0 := mixt_negnatgrad_step F s.gamma_Z_partial s.N_k s.logl s.step_partial
  let newnorm := MPI_Allreduce
    (fun q => mixt_negnatgrad F ( Rank.gamma_Z_partial (w q)) (w q).N_k (w q).logl
      ( Rank.step_partial (w q)))
    ntasks
  let beta_FR := newnorm / s.oldnorm
  let oldstep := if s.didreset then s.oldstep_partial.scale 0
    else if 0 < beta_FR then s.oldstep_partial.scale beta_FR else s.oldstep_partial
  let step := if s.didreset then step0
    else if 0 < beta_FR then step0.add oldstep else step0
  { s with
    newnorm := newnorm
    beta_FR := beta_FR
    oldnorm := newnorm
    oldstep_partial := oldstep
    step_partial := step
    didreset := false
    gamma_Z_partial := s.gamma_Z_partial.add step }

/-- The buffer of rank 0's `gamma_Z` after
`MPI_Gather(&gamma_Z_partial.front(), n_values_per_task, ..., &gamma_Z.front(), ...)`. -/
def gathered (ntasks : Nat) (w : Nat → Rank α) : Matrix α :=
  { (w 0).gamma_Z with
    mat := MPI_Gather (fun q => ( Rank.gamma_Z_partial (w q)).mat) (w 0).n_values_per_task
      ntasks (w 0).gamma_Z.mat }

/-- Lines 85-90 and 109-114 ("Logsumexp 1" and "Logsumexp 2"): gather at rank 0,
`logsumexp(gamma_Z, oldm)` at rank 0, scatter of `gamma_Z`, broadcast of `oldm`. -/
def logsumexp_cycle (F : Kernels α) (ntasks : Nat) (w : Nat → Rank α) (r : Nat) : Rank α :=
  let s := w r
  let G := logsumexp F (gathered ntasks w)
  let m := logsumexp_max (gathered ntasks w) (w 0).oldm
  { s with
    gamma_Z := if r = 0 then G else s.gamma_Z
    gamma_Z_partial :=
      { s.gamma_Z_partial with
        mat := MPI_Scatter G.mat s.n_values_per_task s.gamma_Z_partial.mat r }
    oldm := ⟨s.oldm.size, fun n => if n < s.n_obs then m.dat n else s.oldm.dat n⟩ }

/-- Lines 92-93 and 116-117: `N_k` is recomputed from the local slab; there is no
reduction over the ranks. -/
def update_N_k (F : Kernels α) (alpha0 : Vec α) (s : Rank α) : Rank α :=
  { s with
    N_k := add_alpha0_to_Nk alpha0
      ( s.gamma_Z_partial.exp_right_multiply F s.log_times_observed s.N_k) }

/-- Lines 96-99 and 119-122: local ELBO, all-reduce, `bound += bound_const`. -/
def update_bound (F : Kernels α) (ntasks : Nat) (alpha0 : Vec α) (w : Nat → Rank α)
    (r : Nat) : Rank α :=
  { w r with
    bound := MPI_Allreduce
      (fun q => ELBO_rcg_mat F (w q).logl ( Rank.gamma_Z_partial (w q)) (w q).log_times_observed
        alpha0 (w q).N_k 0) ntasks + (w r).bound_const }

/-- Lines 68-99: the loop body up to the test `bound < oldbound`. -/
def iter_main (F : Kernels α) (ntasks : Nat) (alpha0 : Vec α) (w : Nat → Rank α) :
    Nat → Rank α :=
  let w1 := take_step F ntasks w
  let w2 := logsumexp_cycle F ntasks w1
  let w3 : Nat → Rank α := fun r => { update_N_k F alpha0 (w2 r) with oldbound := (w2 r).bound }
  update_bound F ntasks alpha0 w3

/-- Lines 102-106: `didreset = true`, `revert_step`, and the subtraction of
`oldstep_partial` when `beta_FR > 0`. -/
def revert_local (s : Rank α) : Rank α :=
  let γ := revert_step s.gamma_Z_partial s.oldm
  { s with
    didreset := true
    gamma_Z_partial := if 0 < s.beta_FR then γ.sub s.oldstep_partial else γ }

/-- Lines 102-122: the branch taken when `bound < oldbound`. -/
def iter_revert (F : Kernels α) (ntasks : Nat) (alpha0 : Vec α) (w : Nat → Rank α) :
    Nat → Rank α :=
  let w1 : Nat → Rank α := fun r => revert_local (w r)
  let w2 := logsumexp_cycle F ntasks w1
  let w3 : Nat → Rank α := fun r => update_N_k F alpha0 (w2 r)
  update_bound F ntasks alpha0 w3

/-- Lines 68-125: one pass through the loop body; each rank takes the branch its
own `bound` and `oldbound` select. The collectives of the revert branch are taken over
the values every rank would contribute on entering the branch. -/
def iteration (F : Kernels α) (ntasks : Nat) (alpha0 : Vec α) (w : Nat → Rank α) :
    Nat → Rank α :=
  let w1 := iter_main F ntasks alpha0 w
  let w2 := iter_revert F ntasks alpha0 w1
  fun r =>
    if (w1 r).bound < (w1 r).oldbound then w2 r
    else { w1 r with oldstep_partial := ( Rank.step_partial (w1 r)) }

/-- Line 129: the convergence test `bound - oldbound < tol && !didreset`. -/
def converged (tol : α) (s : Rank α) : Bool :=
  decide (s.bound - s.oldbound < tol) && !s.didreset

/-- Lines 131-134 and 140-143 ("Logsumexp 3"): gather at rank 0 and
`logsumexp(gamma_Z, oldm)` at rank 0, before `return(gamma_Z)`. -/
def final_logsumexp (F : Kernels α) (ntasks : Nat) (w : Nat → Rank α) (r : Nat) : Rank α :=
  let s := w r
  if r = 0 then
    { s with
      gamma_Z := logsumexp F (gathered ntasks w)
      oldm := logsumexp_max (gathered ntasks w) s.oldm }
  else s

/-- Lines 67-138 for iteration `k`: a rank that has returned stays as it is; the
others run the body and return from inside the loop when the test of line 129 holds. -/
def loop_body (F : Kernels α) (ntasks : Nat) (alpha0 : Vec α) (tol : α) (k : Nat)
    (w : Nat → Rank α) : Nat → Rank α :=
  let w1 := iteration F ntasks alpha0 w
  let w2 := final_logsumexp F ntasks w1
  fun r =>
    if (w r).returned.isSome then w r
    else if converged tol (w1 r) then { w2 r with returned := some k }
    else w1 r

/-- The loop `for (uint16_t k = 0; k < maxiters; ++k)`, from iteration `k` on, with
`n` iterations left. -/
def loop (F : Kernels α) (ntasks : Nat) (alpha0 : Vec α) (tol : α) :
    Nat → Nat → (Nat → Rank α) → (Nat → Rank α)
  | 0, _, w => w
  | n + 1, k, w => loop F ntasks alpha0 tol n (k + 1) (loop_body F ntasks alpha0 tol k w)

/-- Lines 139-145: a rank that leaves the loop without having returned gathers,
normalizes at rank 0 and returns. -/
def after_loop (F : Kernels α) (ntasks : Nat) (w : Nat → Rank α) (r : Nat) : Rank α :=
  if (w r).returned.isSome then w r else final_logsumexp F ntasks w r

/-- The function `rcg_optl_mpi(logl_full, log_times_observed_full, alpha0, tol, maxiters)`
run by `ntasks` ranks: the final state of rank `r`. Its `gamma_Z` is the matrix the
rank returns; `returned` is `some k` when the rank returned from inside the loop
during iteration `k` and `none` when it returned after the loop. `maxiters` is the value
of the `uint16_t` argument. -/
def rcg_optl_mpi (F : Kernels α) (ntasks : Nat) (logl_full : Matrix α)
    (log_times_observed_full alpha0 : Vec α) (tol : α) (maxiters : Nat) (r : Nat) : Rank α :=
  after_loop F ntasks
    (loop F ntasks alpha0 tol maxiters 0
      (setup F ntasks logl_full log_times_observed_full alpha0)) r

end Model

/-! ## The serial optimizer `rcg_optl_mat` (specification, section 4.9) -/

section SerialModel

variable {α : Type} [LinearOrderedField α]

/-- Modelled from the spec: the variables of the serial optimizer `rcg_optl_mat`, whose
source is absent. -/
structure Serial (α : Type) where
  gamma_Z : Matrix α
  step : Matrix α
  oldstep : Matrix α
  oldm : Vec α
  N_k : Vec α
  oldnorm : α
  newnorm : α
  beta_FR : α
  bound : α
  oldbound : α
  didreset : Bool
  returned : Option Nat

/-- Modelled from the spec: the initialization of `rcg_optl_mat`, `γ[k,n] = ln(1/K)`,
`oldstep = 0`, `oldnorm = 1`, `bound = −1e5`, `didreset = false`, and the initial `N_k`
from γ with α0 added. -/
def mat_init (F : Kernels α) (logl : Matrix α) (log_times_observed alpha0 : Vec α) :
    Serial α :=
  let γ : Matrix α := Matrix.fill logl.rows logl.cols (F.log (1 / (logl.rows : α)))
  { gamma_Z := γ
    step := Matrix.fill logl.rows logl.cols 0
    oldstep := Matrix.fill logl.rows logl.cols 0
    oldm := ⟨logl.cols, fun _ => 0⟩
    N_k := add_alpha0_to_Nk alpha0
      (γ.exp_right_multiply F log_times_observed ⟨alpha0.size, fun _ => 0⟩)
    oldnorm := 1
    newnorm := 0
    beta_FR := 0
    bound := -100000
    oldbound := 0
    didreset := false
    returned := none }

/-- Modelled from the spec: steps 1 to 8 of an iteration of `rcg_optl_mat`. -/
def mat_main (F : Kernels α) (logl : Matrix α) (log_times_observed alpha0 : Vec α)
    (bound_const : α) (s : Serial α) : Serial α :=
  let step0 := mixt_negnatgrad_step F s.gamma_Z s.N_k logl s.step
  let newnorm := mixt_negnatgrad F s.gamma_Z s.N_k logl s.step
  let beta_FR := newnorm / s.oldnorm
  let oldstep := if s.didreset then s.oldstep.scale 0
    else if 0 < beta_FR then s.oldstep.scale beta_FR else s.oldstep
  let step := if s.didreset then step0
    else if 0 < beta_FR then step0.add oldstep else step0
  let γ := s.gamma_Z.add step
  let γ' := logsumexp F γ
  let N_k := add_alpha0_to_Nk alpha0 (γ'.exp_right_multiply F log_times_observed s.N_k)
  { s with
    newnorm := newnorm
    beta_FR := beta_FR
    oldnorm := newnorm
    oldstep := oldstep
    step := step
    didreset := false
    gamma_Z := γ'
    oldm := logsumexp_max γ s.oldm
    N_k := N_k
    oldbound := s.bound
    bound := ELBO_rcg_mat F logl γ' log_times_observed alpha0 N_k 0 + bound_const }

/-- Modelled from the spec: step 9 of an iteration of `rcg_optl_mat`, the regression
branch. -/
def mat_revert (F : Kernels α) (logl : Matrix α) (log_times_observed alpha0 : Vec α)
    (bound_const : α) (s : Serial α) : Serial α :=
  let γ0 := revert_step s.gamma_Z s.oldm
  let γ := if 0 < s.beta_FR then γ0.sub s.oldstep else γ0
  let γ' := logsumexp F γ
  let N_k := add_alpha0_to_Nk alpha0 (γ'.exp_right_multiply F log_times_observed s.N_k)
  { s with
    didreset := true
    gamma_Z := γ'
    oldm := logsumexp_max γ s.oldm
    N_k := N_k
    bound := ELBO_rcg_mat F logl γ' log_times_observed alpha0 N_k 0 + bound_const }

/-- Modelled from the spec: steps 1 to 10 of an iteration of `rcg_optl_mat`. -/
def mat_iteration (F : Kernels α) (logl : Matrix α) (log_times_observed alpha0 : Vec α)
    (bound_const : α) (s : Serial α) : Serial α :=
  let s1 := mat_main F logl log_times_observed alpha0 bound_const s
  if s1.bound < s1.oldbound then mat_revert F logl log_times_observed alpha0 bound_const s1
  else { s1 with oldstep := s1.step }

/-- Modelled from the spec: iteration `k` of `rcg_optl_mat` with the convergence test
of step 12, which runs a final `logsumexp` and returns. -/
def mat_loop_body (F : Kernels α) (logl : Matrix α) (log_times_observed alpha0 : Vec α)
    (bound_const tol : α) (k : Nat) (s : Serial α) : Serial α :=
  if s.returned.isSome then s
  else
    let s1 := mat_iteration F logl log_times_observed alpha0 bound_const s
    if s1.bound - s1.oldbound < tol ∧ s1.didreset = false then
      { s1 with gamma_Z := logsumexp F s1.gamma_Z, returned := some k }
    else s1

/-- Modelled from the spec: the iterations `k, k+1, ...` of `rcg_optl_mat`, `n` of them. -/
def mat_loop (F : Kernels α) (logl : Matrix α) (log_times_observed alpha0 : Vec α)
    (bound_const tol : α) : Nat → Nat → Serial α → Serial α
  | 0, _, s => s
  | n + 1, k, s =>
    mat_loop F logl log_times_observed alpha0 bound_const tol n (k + 1)
      (mat_loop_body F logl log_times_observed alpha0 bound_const tol k s)

/-- Modelled from the spec: `rcg_optl_mat(logl, log_times_observed, alpha0, bound_const,
tol, maxiters, ...)`, the matrix it leaves in its output argument; on exhausting
`maxiters` it runs a final `logsumexp`. -/
def rcg_optl_mat (F : Kernels α) (logl : Matrix α) (log_times_observed alpha0 : Vec α)
    (bound_const tol : α) (maxiters : Nat) : Matrix α :=
  let s := mat_loop F logl log_times_observed alpha0 bound_const tol maxiters 0
    (mat_init F logl log_times_observed alpha0)
  if s.returned.isSome then s.gamma_Z else logsumexp F s.gamma_Z

end SerialModel

/-! ## Notions used in the statements -/

section Notions

variable {α : Type} [LinearOrderedField α]

/-- The scalars of a rank that decide its control flow: `newnorm`, `beta_FR`, `oldnorm`,
`oldbound`, `bound`, `bound_const`, `didreset`, and where it returned. -/
def scalars (s : Rank α) : α × α × α × α × α × α × Bool × Option Nat :=
  (s.newnorm, s.beta_FR, s.oldnorm, s.oldbound, s.bound, s.bound_const, s.didreset, s.returned)

/-- `G2` is `G1` with `c n` added to every entry of column `n`. -/
def ColumnShift (G1 G2 : Matrix α) (c : Nat → α) : Prop :=
  G2.rows = G1.rows ∧ G2.cols = G1.cols
    ∧ ∀ i, i < G1.rows * G1.cols → G2.mat i = G1.mat i + c (i % G1.cols)

/-- The ranks after the plain gradient step of a pass: `gamma_Z_partial` plus
`step_partial` as `mixt_negnatgrad` leaves it, without the momentum term. -/
def grad_step (F : Kernels α) (w : Nat → Rank α) (r : Nat) : Rank α :=
  { w r with
    gamma_Z_partial := ( Rank.gamma_Z_partial (w r)).add
      (mixt_negnatgrad_step F ( Rank.gamma_Z_partial (w r)) (w r).N_k (w r).logl
        ( Rank.step_partial (w r))) }

/-- The slabs are `K` x `W`, the counts of the collectives are `K*W` and `ntasks*W`, and
rank 0's `gamma_Z` is `K` x `ntasks*W`. -/
def Shaped (ntasks K W : Nat) (w : Nat → Rank α) : Prop :=
  (∀ r, ( Rank.gamma_Z_partial (w r)).rows = K ∧ ( Rank.gamma_Z_partial (w r)).cols = W
      ∧ (w r).n_values_per_task = K * W ∧ (w r).n_obs = ntasks * W)
    ∧ (w 0).gamma_Z.rows = K ∧ (w 0).gamma_Z.cols = ntasks * W

/-- The matrix of the serial optimizer after the plain gradient step of its first pass. -/
def mat_grad_step (F : Kernels α) (logl : Matrix α) (s : Serial α) : Matrix α :=
  s.gamma_Z.add (mixt_negnatgrad_step F s.gamma_Z s.N_k logl s.step)

end Notions

section RealNotions

/-- Every column of `m` is a log-probability vector: `Σ_k exp(m[k,n]) = 1`. -/
def Normalized (m : Matrix ℝ) : Prop :=
  ∀ n, n < m.cols → ∑ k ∈ range m.rows, Real.exp (m.get k n) = 1

/-- At every rank the slab has `K` rows and `N_k[k] ≥ alpha0[k]` for every `k < K`. -/
def NkBounded (K : Nat) (alpha0 : Vec ℝ) (w : Nat → Rank ℝ) : Prop :=
  ∀ r, ( Rank.gamma_Z_partial (w r)).rows = K ∧ ∀ k, k < K → alpha0.dat k ≤ (w r).N_k.dat k

end RealNotions

/-! ## Index arithmetic of the row-major layout -/

section Index

theorem flat_lt {rows cols k n : Nat} (hk : k < rows) (hn : n < cols) :
    k * cols + n < rows * cols := by
  calc k * cols + n < k * cols + cols := by omega
    _ = (k + 1) * cols := by ring
    _ ≤ rows * cols := Nat.mul_le_mul_right _ hk

theorem flat_mod {cols n : Nat} (k : Nat) (hn : n < cols) : (k * cols + n) % cols = n := by
  rw [Nat.add_comm, Nat.add_mul_mod_self_right, Nat.mod_eq_of_lt hn]

theorem flat_div {cols n : Nat} (k : Nat) (hn : n < cols) : (k * cols + n) / cols = k := by
  have hc : 0 < cols := by omega
  rw [Nat.add_comm, Nat.add_mul_div_right _ _ hc, Nat.div_eq_of_lt hn, Nat.zero_add]

end Index

/-! ## The normalization `logsumexp` over the reals -/

section Normalization

theorem logsumexp_get (F : Kernels ℝ) (G : Matrix ℝ) {k n : Nat} (hk : k < G.rows)
    (hn : n < G.cols) : (logsumexp F G).get k n = G.get k n - colshift F G n := by
  simp only [logsumexp, Matrix.get, if_pos (flat_lt hk hn), flat_mod k hn]

theorem colsum_pos (G : Matrix ℝ) (n : Nat) (c : ℝ) (hK : 0 < G.rows) :
    0 < ∑ k ∈ range G.rows, Real.exp (G.get k n - c) :=
  Finset.sum_pos (fun _ _ => Real.exp_pos _) ⟨0, Finset.mem_range.mpr hK⟩

theorem logsumexp_normalized (F : Kernels ℝ) (hexp : F.exp = Real.exp)
    (hlog : F.log = Real.log) (G : Matrix ℝ) (hK : 0 < G.rows) :
    Normalized (logsumexp F G) := by
  intro n hn
  have hn' : n < G.cols := hn
  have hS := colsum_pos G n (colmax G n) hK
  have h : ∀ k ∈ range G.rows,
      Real.exp ((logsumexp F G).get k n)
        = Real.exp (G.get k n - colmax G n)
          / ∑ k ∈ range G.rows, Real.exp (G.get k n - colmax G n) := by
    intro k hk
    rw [logsumexp_get _ G (Finset.mem_range.mp hk) hn']
    simp only [colshift, hexp, hlog]
    rw [← sub_sub, Real.exp_sub, Real.exp_log hS]
  show ∑ k ∈ range G.rows, _ = 1
  rw [Finset.sum_congr rfl h, ← Finset.sum_div, div_self hS.ne']

end Normalization

/-! ## Shape of rank 0's `gamma_Z` along the run -/

section Shape

variable {α : Type} [LinearOrderedField α]

theorem iteration_gamma_Z_shape (F : Kernels α) (ntasks : Nat) (alpha0 : Vec α)
    (w : Nat → Rank α) :
    (iteration F ntasks alpha0 w 0).gamma_Z.rows = (w 0).gamma_Z.rows
      ∧ (iteration F ntasks alpha0 w 0).gamma_Z.cols = (w 0).gamma_Z.cols := by
  unfold iteration
  simp only []
  split_ifs <;>
    simp [iter_revert, iter_main, update_bound, update_N_k, logsumexp_cycle, take_step,
      revert_local, gathered, logsumexp]

theorem final_logsumexp_gamma_Z (F : Kernels α) (ntasks : Nat) (w : Nat → Rank α) :
    (final_logsumexp F ntasks w 0).gamma_Z = logsumexp F (gathered ntasks w) := by
  simp [final_logsumexp]

theorem loop_body_gamma_Z_shape (F : Kernels α) (ntasks : Nat) (alpha0 : Vec α) (tol : α)
    (k : Nat) (w : Nat → Rank α) :
    (loop_body F ntasks alpha0 tol k w 0).gamma_Z.rows = (w 0).gamma_Z.rows
      ∧ (loop_body F ntasks alpha0 tol k w 0).gamma_Z.cols = (w 0).gamma_Z.cols := by
  have h := iteration_gamma_Z_shape F ntasks alpha0 w
  unfold loop_body
  simp only []
  split_ifs
  · exact ⟨rfl, rfl⟩
  · simp only [final_logsumexp_gamma_Z]
    exact h
  · exact h

theorem loop_gamma_Z_shape (F : Kernels α) (ntasks : Nat) (alpha0 : Vec α) (tol : α)
    (n k : Nat) (w : Nat → Rank α) :
    (loop F ntasks alpha0 tol n k w 0).gamma_Z.rows = (w 0).gamma_Z.rows
      ∧ (loop F ntasks alpha0 tol n k w 0).gamma_Z.cols = (w 0).gamma_Z.cols := by
  induction n generalizing k w with
  | zero => exact ⟨rfl, rfl⟩
  | succ n ih =>
    have h := loop_body_gamma_Z_shape F ntasks alpha0 tol k w
    have h2 := ih (k + 1) (loop_body F ntasks alpha0 tol k w)
    simp only [loop]
    exact ⟨h2.1.trans h.1, h2.2.trans h.2⟩

end Shape


/-! ## The matrix rank 0 returns -/

section Returned

variable {α : Type} [LinearOrderedField α]

theorem iteration_returned (F : Kernels α) (ntasks : Nat) (alpha0 : Vec α)
    (w : Nat → Rank α) (r : Nat) :
    (iteration F ntasks alpha0 w r).returned = (w r).returned := by
  unfold iteration
  simp only []
  split_ifs <;>
    simp [iter_revert, iter_main, update_bound, update_N_k, logsumexp_cycle, take_step,
      revert_local]

theorem loop_body_cases (F : Kernels α) (ntasks : Nat) (alpha0 : Vec α) (tol : α) (k : Nat)
    (w : Nat → Rank α) (r : Nat) :
    ((w r).returned.isSome ∧ loop_body F ntasks alpha0 tol k w r = w r)
    ∨ ((w r).returned = none ∧ converged tol (iteration F ntasks alpha0 w r) = true
        ∧ loop_body F ntasks alpha0 tol k w r
          = { final_logsumexp F ntasks (iteration F ntasks alpha0 w) r with returned := some k })
    ∨ ((w r).returned = none ∧ converged tol (iteration F ntasks alpha0 w r) = false
        ∧ loop_body F ntasks alpha0 tol k w r = iteration F ntasks alpha0 w r) := by
  unfold loop_body
  simp only []
  by_cases h1 : (w r).returned.isSome
  · left; exact ⟨h1, by rw [if_pos h1]⟩
  · right
    have h1' : (w r).returned = none := by simpa using h1
    by_cases h2 : converged tol (iteration F ntasks alpha0 w r) = true
    · left; exact ⟨h1', h2, by rw [if_neg h1, if_pos h2]⟩
    · right; exact ⟨h1', by simpa using h2, by rw [if_neg h1, if_neg h2]⟩

theorem loop_body_returned_normalized (F : Kernels ℝ) (hexp : F.exp = Real.exp)
    (hlog : F.log = Real.log) (ntasks : Nat) (alpha0 : Vec ℝ) (tol : ℝ) (k : Nat)
    (w : Nat → Rank ℝ) (hK : 0 < (w 0).gamma_Z.rows)
    (h : (w 0).returned.isSome → Normalized (w 0).gamma_Z) :
    (loop_body F ntasks alpha0 tol k w 0).returned.isSome
      → Normalized (loop_body F ntasks alpha0 tol k w 0).gamma_Z := by
  have hs := iteration_gamma_Z_shape F ntasks alpha0 w
  rcases loop_body_cases F ntasks alpha0 tol k w 0 with ⟨h1, e⟩ | ⟨_, _, e⟩ | ⟨h1, _, e⟩
  · rw [e]; exact h
  · rw [e]
    intro _
    show Normalized (final_logsumexp F ntasks (iteration F ntasks alpha0 w) 0).gamma_Z
    rw [final_logsumexp_gamma_Z]
    apply logsumexp_normalized F hexp hlog
    show 0 < (iteration F ntasks alpha0 w 0).gamma_Z.rows
    rw [hs.1]; exact hK
  · rw [e, iteration_returned, h1]
    intro h3
    exact absurd h3 (by simp)

theorem loop_returned_normalized (F : Kernels ℝ) (hexp : F.exp = Real.exp)
    (hlog : F.log = Real.log) (ntasks : Nat) (alpha0 : Vec ℝ) (tol : ℝ) (n k : Nat)
    (w : Nat → Rank ℝ) (hK : 0 < (w 0).gamma_Z.rows)
    (h : (w 0).returned.isSome → Normalized (w 0).gamma_Z) :
    (loop F ntasks alpha0 tol n k w 0).returned.isSome
      → Normalized (loop F ntasks alpha0 tol n k w 0).gamma_Z := by
  induction n generalizing k w with
  | zero => exact h
  | succ n ih =>
    simp only [loop]
    apply ih
    · rw [(loop_body_gamma_Z_shape _ ntasks alpha0 tol k w).1]; exact hK
    · exact loop_body_returned_normalized F hexp hlog ntasks alpha0 tol k w hK h

theorem setup_gamma_Z_rows (F : Kernels α) (ntasks : Nat) (logl_full : Matrix α)
    (log_times_observed_full alpha0 : Vec α) :
    (setup F ntasks logl_full log_times_observed_full alpha0 0).gamma_Z.rows
      = n_groups logl_full.rows := by
  simp [setup, Matrix.fill]

theorem setup_returned (F : Kernels α) (ntasks : Nat) (logl_full : Matrix α)
    (log_times_observed_full alpha0 : Vec α) (r : Nat) :
    (setup F ntasks logl_full log_times_observed_full alpha0 r).returned = none := rfl

theorem setup_gamma_Z_cols (F : Kernels α) (ntasks : Nat) (logl_full : Matrix α)
    (log_times_observed_full alpha0 : Vec α) :
    (setup F ntasks logl_full log_times_observed_full alpha0 0).gamma_Z.cols
      = n_obs log_times_observed_full.size := by
  simp [setup, Matrix.fill]

theorem rcg_optl_mpi_gamma_Z_shape (F : Kernels α) (ntasks : Nat) (logl_full : Matrix α)
    (log_times_observed_full alpha0 : Vec α) (tol : α) (maxiters : Nat) :
    (rcg_optl_mpi F ntasks logl_full log_times_observed_full alpha0 tol maxiters 0).gamma_Z.rows
        = n_groups logl_full.rows
      ∧ (rcg_optl_mpi F ntasks logl_full log_times_observed_full alpha0 tol maxiters
          0).gamma_Z.cols = n_obs log_times_observed_full.size := by
  have h0 := setup_gamma_Z_rows F ntasks logl_full log_times_observed_full alpha0
  have h0c := setup_gamma_Z_cols F ntasks logl_full log_times_observed_full alpha0
  have hr := loop_gamma_Z_shape F ntasks alpha0 tol
    maxiters 0 (setup F ntasks logl_full log_times_observed_full alpha0)
  unfold rcg_optl_mpi after_loop
  split_ifs with h1
  · exact ⟨hr.1.trans h0, hr.2.trans h0c⟩
  · rw [final_logsumexp_gamma_Z]
    exact ⟨hr.1.trans h0, hr.2.trans h0c⟩

theorem rcg_optl_mpi_normalized (F : Kernels ℝ) (hexp : F.exp = Real.exp)
    (hlog : F.log = Real.log) (ntasks : Nat) (logl_full : Matrix ℝ)
    (log_times_observed_full alpha0 : Vec ℝ) (tol : ℝ) (maxiters : Nat)
    (hK : 1 ≤ n_groups logl_full.rows) :
    Normalized (rcg_optl_mpi F ntasks logl_full
      log_times_observed_full alpha0 tol maxiters 0).gamma_Z := by
  have h0 := setup_gamma_Z_rows F ntasks logl_full log_times_observed_full alpha0
  have hr := (loop_gamma_Z_shape F ntasks alpha0 tol
    maxiters 0 (setup F ntasks logl_full log_times_observed_full alpha0)).1
  have hn := loop_returned_normalized F hexp hlog ntasks alpha0 tol maxiters 0
    (setup F ntasks logl_full log_times_observed_full alpha0) (by rw [h0]; exact hK)
    (by rw [setup_returned]; intro h; exact absurd h (by simp))
  unfold rcg_optl_mpi after_loop
  split_ifs with h1
  · exact hn h1
  · rw [final_logsumexp_gamma_Z]
    apply logsumexp_normalized F hexp hlog
    show 0 < (loop F ntasks alpha0 tol maxiters 0 _ 0).gamma_Z.rows
    rw [hr, h0]; exact hK

end Returned

/-! ## Lock-step agreement of the scalars -/

section Agreement

variable {α : Type} [LinearOrderedField α]

theorem scalars_setup (F : Kernels α) (ntasks : Nat) (logl_full : Matrix α)
    (log_times_observed_full alpha0 : Vec α) (r q : Nat) :
    scalars (setup F ntasks logl_full log_times_observed_full alpha0 r)
      = scalars (setup F ntasks logl_full log_times_observed_full alpha0 q) := rfl

theorem scalars_iter_main (F : Kernels α) (ntasks : Nat) (alpha0 : Vec α)
    (w : Nat → Rank α) (r q : Nat) (h : scalars (w r) = scalars (w q)) :
    scalars (iter_main F ntasks alpha0 w r) = scalars (iter_main F ntasks alpha0 w q) := by
  simp only [scalars, Prod.mk.injEq] at h
  obtain ⟨-, -, h3, -, h5, h6, -, h8⟩ := h
  simp [scalars, iter_main, update_bound, update_N_k, logsumexp_cycle, take_step, h3, h5, h6, h8]

theorem scalars_iter_revert (F : Kernels α) (ntasks : Nat) (alpha0 : Vec α)
    (w : Nat → Rank α) (r q : Nat) (h : scalars (w r) = scalars (w q)) :
    scalars (iter_revert F ntasks alpha0 w r) = scalars (iter_revert F ntasks alpha0 w q) := by
  simp only [scalars, Prod.mk.injEq] at h
  obtain ⟨h1, h2, h3, h4, -, h6, -, h8⟩ := h
  simp [scalars, iter_revert, update_bound, update_N_k, logsumexp_cycle, revert_local,
    h1, h2, h3, h4, h6, h8]

theorem scalars_iteration (F : Kernels α) (ntasks : Nat) (alpha0 : Vec α)
    (w : Nat → Rank α) (r q : Nat) (h : scalars (w r) = scalars (w q)) :
    scalars (iteration F ntasks alpha0 w r) = scalars (iteration F ntasks alpha0 w q) := by
  have hm := scalars_iter_main F ntasks alpha0 w r q h
  have hr := scalars_iter_revert F ntasks alpha0 (iter_main F ntasks alpha0 w) r q hm
  have hm' := hm
  simp only [scalars, Prod.mk.injEq] at hm'
  obtain ⟨-, -, -, h4, h5, -, -, -⟩ := hm'
  have hc : ((iter_main F ntasks alpha0 w r).bound < (iter_main F ntasks alpha0 w r).oldbound)
      ↔ ((iter_main F ntasks alpha0 w q).bound < (iter_main F ntasks alpha0 w q).oldbound) := by
    rw [h4, h5]
  unfold iteration
  simp only []
  by_cases hb : (iter_main F ntasks alpha0 w r).bound < (iter_main F ntasks alpha0 w r).oldbound
  · rw [if_pos hb, if_pos (hc.mp hb)]
    exact hr
  · rw [if_neg hb, if_neg (fun h' => hb (hc.mpr h'))]
    exact hm

theorem scalars_final_logsumexp (F : Kernels α) (ntasks : Nat) (w : Nat → Rank α) (r : Nat) :
    scalars (final_logsumexp F ntasks w r) = scalars (w r) := by
  unfold final_logsumexp
  simp only []
  split_ifs <;> rfl

theorem scalars_loop_body (F : Kernels α) (ntasks : Nat) (alpha0 : Vec α) (tol : α) (k : Nat)
    (w : Nat → Rank α) (r q : Nat) (h : scalars (w r) = scalars (w q)) :
    scalars (loop_body F ntasks alpha0 tol k w r)
      = scalars (loop_body F ntasks alpha0 tol k w q) := by
  have hi := scalars_iteration F ntasks alpha0 w r q h
  have hf : scalars (final_logsumexp F ntasks (iteration F ntasks alpha0 w) r)
      = scalars (final_logsumexp F ntasks (iteration F ntasks alpha0 w) q) := by
    rw [scalars_final_logsumexp, scalars_final_logsumexp]; exact hi
  have hret : (w r).returned = (w q).returned := by
    simp only [scalars, Prod.mk.injEq] at h
    exact h.2.2.2.2.2.2.2
  have hc : converged tol (iteration F ntasks alpha0 w r)
      = converged tol (iteration F ntasks alpha0 w q) := by
    have hi' := hi
    simp only [scalars, Prod.mk.injEq] at hi'
    obtain ⟨-, -, -, h4, h5, -, h7, -⟩ := hi'
    simp only [converged, h4, h5, h7]
  unfold loop_body
  simp only []
  rw [hret, hc]
  split_ifs
  · exact h
  · simp only [scalars, Prod.mk.injEq] at hf ⊢
    obtain ⟨h1, h2, h3, h4, h5, h6, h7, -⟩ := hf
    exact ⟨h1, h2, h3, h4, h5, h6, h7, trivial⟩
  · exact hi

theorem scalars_loop (F : Kernels α) (ntasks : Nat) (alpha0 : Vec α) (tol : α) (n k : Nat)
    (w : Nat → Rank α) (h : ∀ r q, scalars (w r) = scalars (w q)) (r q : Nat) :
    scalars (loop F ntasks alpha0 tol n k w r) = scalars (loop F ntasks alpha0 tol n k w q) := by
  induction n generalizing k w with
  | zero => exact h r q
  | succ n ih =>
    simp only [loop]
    exact ih (k + 1) _ (fun a b => scalars_loop_body F ntasks alpha0 tol k w a b (h a b))

theorem scalars_after_loop (F : Kernels α) (ntasks : Nat) (w : Nat → Rank α) (r q : Nat)
    (h : scalars (w r) = scalars (w q)) :
    scalars (after_loop F ntasks w r) = scalars (after_loop F ntasks w q) := by
  have hret : (w r).returned = (w q).returned := by
    simp only [scalars, Prod.mk.injEq] at h
    exact h.2.2.2.2.2.2.2
  unfold after_loop
  rw [hret]
  split_ifs
  · exact h
  · rw [scalars_final_logsumexp, scalars_final_logsumexp]; exact h

end Agreement

/-! ## Shape of the slabs and the lower bound on `N_k` -/

section SlabShape

variable {α : Type} [LinearOrderedField α]

theorem take_step_shape (F : Kernels α) (ntasks : Nat) (w : Nat → Rank α) (r : Nat) :
    ( Rank.gamma_Z_partial (take_step F ntasks w r)).rows = ( Rank.gamma_Z_partial (w r)).rows
      ∧ ( Rank.gamma_Z_partial (take_step F ntasks w r)).cols = ( Rank.gamma_Z_partial (w r)).cols := by
  simp [take_step, Matrix.add]

theorem logsumexp_cycle_shape (F : Kernels α) (ntasks : Nat) (w : Nat → Rank α) (r : Nat) :
    ( Rank.gamma_Z_partial (logsumexp_cycle F ntasks w r)).rows = ( Rank.gamma_Z_partial (w r)).rows
      ∧ ( Rank.gamma_Z_partial (logsumexp_cycle F ntasks w r)).cols = ( Rank.gamma_Z_partial (w r)).cols := by
  simp [logsumexp_cycle]

theorem revert_local_shape (s : Rank α) :
    ( Rank.gamma_Z_partial (revert_local s)).rows = s.gamma_Z_partial.rows
      ∧ ( Rank.gamma_Z_partial (revert_local s)).cols = s.gamma_Z_partial.cols := by
  unfold revert_local
  simp only []
  split_ifs <;> simp [revert_step, Matrix.sub]

theorem iter_main_shape (F : Kernels α) (ntasks : Nat) (alpha0 : Vec α) (w : Nat → Rank α)
    (r : Nat) :
    ( Rank.gamma_Z_partial (iter_main F ntasks alpha0 w r)).rows = ( Rank.gamma_Z_partial (w r)).rows
      ∧ ( Rank.gamma_Z_partial (iter_main F ntasks alpha0 w r)).cols = ( Rank.gamma_Z_partial (w r)).cols := by
  have h1 := take_step_shape F ntasks w r
  have h2 := logsumexp_cycle_shape F ntasks (take_step F ntasks w) r
  exact ⟨h2.1.trans h1.1, h2.2.trans h1.2⟩

theorem iter_revert_shape (F : Kernels α) (ntasks : Nat) (alpha0 : Vec α) (w : Nat → Rank α)
    (r : Nat) :
    ( Rank.gamma_Z_partial (iter_revert F ntasks alpha0 w r)).rows = ( Rank.gamma_Z_partial (w r)).rows
      ∧ ( Rank.gamma_Z_partial (iter_revert F ntasks alpha0 w r)).cols = ( Rank.gamma_Z_partial (w r)).cols := by
  have h1 := revert_local_shape (w r)
  have h2 := logsumexp_cycle_shape F ntasks (fun q => revert_local (w q)) r
  exact ⟨h2.1.trans h1.1, h2.2.trans h1.2⟩

theorem iteration_shape (F : Kernels α) (ntasks : Nat) (alpha0 : Vec α) (w : Nat → Rank α)
    (r : Nat) :
    ( Rank.gamma_Z_partial (iteration F ntasks alpha0 w r)).rows = ( Rank.gamma_Z_partial (w r)).rows
      ∧ ( Rank.gamma_Z_partial (iteration F ntasks alpha0 w r)).cols = ( Rank.gamma_Z_partial (w r)).cols := by
  have h1 := iter_main_shape F ntasks alpha0 w r
  have h2 := iter_revert_shape F ntasks alpha0 (iter_main F ntasks alpha0 w) r
  unfold iteration
  simp only []
  split_ifs
  · exact ⟨h2.1.trans h1.1, h2.2.trans h1.2⟩
  · exact h1

theorem final_logsumexp_slab (F : Kernels α) (ntasks : Nat) (w : Nat → Rank α) (r : Nat) :
    ( Rank.gamma_Z_partial (final_logsumexp F ntasks w r)) = ( Rank.gamma_Z_partial (w r))
      ∧ (final_logsumexp F ntasks w r).N_k = (w r).N_k := by
  unfold final_logsumexp
  simp only []
  split_ifs <;> exact ⟨rfl, rfl⟩

theorem loop_body_shape (F : Kernels α) (ntasks : Nat) (alpha0 : Vec α) (tol : α) (k : Nat)
    (w : Nat → Rank α) (r : Nat) :
    ( Rank.gamma_Z_partial (loop_body F ntasks alpha0 tol k w r)).rows = ( Rank.gamma_Z_partial (w r)).rows
      ∧ ( Rank.gamma_Z_partial (loop_body F ntasks alpha0 tol k w r)).cols
        = ( Rank.gamma_Z_partial (w r)).cols := by
  have h := iteration_shape F ntasks alpha0 w r
  rcases loop_body_cases F ntasks alpha0 tol k w r with ⟨_, e⟩ | ⟨_, _, e⟩ | ⟨_, _, e⟩
  · rw [e]; exact ⟨rfl, rfl⟩
  · rw [e]
    show ( Rank.gamma_Z_partial (final_logsumexp F ntasks (iteration F ntasks alpha0 w) r)).rows = _
      ∧ ( Rank.gamma_Z_partial (final_logsumexp F ntasks (iteration F ntasks alpha0 w) r)).cols = _
    rw [(final_logsumexp_slab F ntasks _ r).1]; exact h
  · rw [e]; exact h

theorem loop_shape (F : Kernels α) (ntasks : Nat) (alpha0 : Vec α) (tol : α) (n k : Nat)
    (w : Nat → Rank α) (r : Nat) :
    ( Rank.gamma_Z_partial (loop F ntasks alpha0 tol n k w r)).rows = ( Rank.gamma_Z_partial (w r)).rows
      ∧ ( Rank.gamma_Z_partial (loop F ntasks alpha0 tol n k w r)).cols
        = ( Rank.gamma_Z_partial (w r)).cols := by
  induction n generalizing k w with
  | zero => exact ⟨rfl, rfl⟩
  | succ n ih =>
    have h := loop_body_shape F ntasks alpha0 tol k w r
    have h2 := ih (k + 1) (loop_body F ntasks alpha0 tol k w)
    simp only [loop]
    exact ⟨h2.1.trans h.1, h2.2.trans h.2⟩

end SlabShape

section ExpectedCounts

theorem N_k_ge_alpha0 (F : Kernels ℝ) (hexp : F.exp = Real.exp) (alpha0 : Vec ℝ)
    (γ : Matrix ℝ) (v out : Vec ℝ) (k : Nat) (hk : k < γ.rows) :
    alpha0.dat k ≤ (add_alpha0_to_Nk alpha0 (γ.exp_right_multiply F v out)).dat k := by
  simp only [add_alpha0_to_Nk, Matrix.exp_right_multiply, if_pos hk, hexp]
  have : 0 ≤ ∑ n ∈ range γ.cols, Real.exp (γ.get k n + v.dat n) :=
    Finset.sum_nonneg (fun _ _ => (Real.exp_pos _).le)
  linarith

theorem iter_main_NkBounded (F : Kernels ℝ) (hexp : F.exp = Real.exp) (ntasks K : Nat)
    (alpha0 : Vec ℝ) (w : Nat → Rank ℝ) (h : ∀ r, ( Rank.gamma_Z_partial (w r)).rows = K) :
    NkBounded K alpha0 (iter_main F ntasks alpha0 w) := by
  intro r
  have hs := (iter_main_shape F ntasks alpha0 w r).1
  refine ⟨hs.trans (h r), fun k hk => ?_⟩
  show alpha0.dat k ≤ (add_alpha0_to_Nk alpha0
    (( Rank.gamma_Z_partial (logsumexp_cycle F ntasks (take_step F ntasks w) r)).exp_right_multiply F
      _ _)).dat k
  apply N_k_ge_alpha0 F hexp
  rw [(logsumexp_cycle_shape F ntasks _ r).1, (take_step_shape F ntasks w r).1, h r]
  exact hk

theorem iter_revert_NkBounded (F : Kernels ℝ) (hexp : F.exp = Real.exp) (ntasks K : Nat)
    (alpha0 : Vec ℝ) (w : Nat → Rank ℝ) (h : ∀ r, ( Rank.gamma_Z_partial (w r)).rows = K) :
    NkBounded K alpha0 (iter_revert F ntasks alpha0 w) := by
  intro r
  have hs := (iter_revert_shape F ntasks alpha0 w r).1
  refine ⟨hs.trans (h r), fun k hk => ?_⟩
  show alpha0.dat k ≤ (add_alpha0_to_Nk alpha0
    (( Rank.gamma_Z_partial (logsumexp_cycle F ntasks (fun q => revert_local (w q)) r)).exp_right_multiply
      F _ _)).dat k
  apply N_k_ge_alpha0 F hexp
  rw [(logsumexp_cycle_shape F ntasks _ r).1, (revert_local_shape (w r)).1, h r]
  exact hk

theorem iteration_NkBounded (F : Kernels ℝ) (hexp : F.exp = Real.exp) (ntasks K : Nat)
    (alpha0 : Vec ℝ) (w : Nat → Rank ℝ) (h : ∀ r, ( Rank.gamma_Z_partial (w r)).rows = K) :
    NkBounded K alpha0 (iteration F ntasks alpha0 w) := by
  have h1 := iter_main_NkBounded F hexp ntasks K alpha0 w h
  have h2 := iter_revert_NkBounded F hexp ntasks K alpha0 (iter_main F ntasks alpha0 w)
    (fun r => (h1 r).1)
  intro r
  unfold iteration
  simp only []
  split_ifs
  · exact h2 r
  · exact h1 r

theorem loop_body_NkBounded (F : Kernels ℝ) (hexp : F.exp = Real.exp) (ntasks K : Nat)
    (alpha0 : Vec ℝ) (tol : ℝ) (k : Nat) (w : Nat → Rank ℝ) (h : NkBounded K alpha0 w) :
    NkBounded K alpha0 (loop_body F ntasks alpha0 tol k w) := by
  have hi := iteration_NkBounded F hexp ntasks K alpha0 w (fun r => (h r).1)
  intro r
  rcases loop_body_cases F ntasks alpha0 tol k w r with ⟨_, e⟩ | ⟨_, _, e⟩ | ⟨_, _, e⟩
  · rw [e]; exact h r
  · rw [e]
    show ( Rank.gamma_Z_partial (final_logsumexp F ntasks (iteration F ntasks alpha0 w) r)).rows = K
      ∧ ∀ k, k < K → alpha0.dat k
        ≤ (final_logsumexp F ntasks (iteration F ntasks alpha0 w) r).N_k.dat k
    rw [(final_logsumexp_slab F ntasks _ r).1, (final_logsumexp_slab F ntasks _ r).2]
    exact hi r
  · rw [e]; exact hi r

theorem loop_NkBounded (F : Kernels ℝ) (hexp : F.exp = Real.exp) (ntasks K : Nat)
    (alpha0 : Vec ℝ) (tol : ℝ) (n k : Nat) (w : Nat → Rank ℝ) (h : NkBounded K alpha0 w) :
    NkBounded K alpha0 (loop F ntasks alpha0 tol n k w) := by
  induction n generalizing k w with
  | zero => exact h
  | succ n ih =>
    simp only [loop]
    exact ih (k + 1) _ (loop_body_NkBounded F hexp ntasks K alpha0 tol k w h)

theorem setup_NkBounded (F : Kernels ℝ) (hexp : F.exp = Real.exp) (ntasks : Nat)
    (logl_full : Matrix ℝ) (log_times_observed_full alpha0 : Vec ℝ) :
    NkBounded (n_groups logl_full.rows) alpha0
      (setup F ntasks logl_full log_times_observed_full alpha0) := by
  intro r
  refine ⟨rfl, fun k hk => ?_⟩
  exact N_k_ge_alpha0 F hexp alpha0 _ _ _ k hk

end ExpectedCounts

/-! ## `logsumexp` does not see a constant added to a column -/

section Shift

variable {α : Type} [LinearOrderedField α]

theorem maxUpTo_congr (f g : Nat → α) (k : Nat) (h : ∀ j, j ≤ k → f j = g j) :
    maxUpTo f k = maxUpTo g k := by
  induction k with
  | zero => exact h 0 (Nat.le_refl 0)
  | succ k ih =>
    simp only [maxUpTo]
    rw [ih (fun j hj => h j (Nat.le_succ_of_le hj)), h (k + 1) (Nat.le_refl _)]

theorem maxUpTo_add_const (f : Nat → α) (c : α) (k : Nat) :
    maxUpTo (fun i => f i + c) k = maxUpTo f k + c := by
  induction k with
  | zero => rfl
  | succ k ih => simp only [maxUpTo, ih, max_add_add_right]

theorem ColumnShift.get {G1 G2 : Matrix α} {c : Nat → α} (h : ColumnShift G1 G2 c)
    {k n : Nat} (hk : k < G1.rows) (hn : n < G1.cols) : G2.get k n = G1.get k n + c n := by
  obtain ⟨_, hc, hm⟩ := h
  simp only [Matrix.get, hc]
  rw [hm _ (flat_lt hk hn), flat_mod k hn]

theorem colmax_shift {G1 G2 : Matrix α} {c : Nat → α} (h : ColumnShift G1 G2 c)
    {n : Nat} (hK : 0 < G1.rows) (hn : n < G1.cols) : colmax G2 n = colmax G1 n + c n := by
  unfold colmax
  rw [h.1, ← maxUpTo_add_const]
  apply maxUpTo_congr
  intro j hj
  exact h.get (by omega) hn

theorem colshift_shift (F : Kernels α) {G1 G2 : Matrix α} {c : Nat → α}
    (h : ColumnShift G1 G2 c) {n : Nat} (hK : 0 < G1.rows) (hn : n < G1.cols) :
    colshift F G2 n = colshift F G1 n + c n := by
  unfold colshift
  rw [colmax_shift h hK hn, h.1]
  have hs : ∑ k ∈ range G1.rows, F.exp (G2.get k n - (colmax G1 n + c n))
      = ∑ k ∈ range G1.rows, F.exp (G1.get k n - colmax G1 n) := by
    apply Finset.sum_congr rfl
    intro k hk
    rw [h.get (Finset.mem_range.mp hk) hn]
    congr 1
    ring
  rw [hs]
  ring

theorem logsumexp_shift (F : Kernels α) {G1 G2 : Matrix α} {c : Nat → α}
    (h : ColumnShift G1 G2 c) {i : Nat} (hi : i < G1.rows * G1.cols) :
    (logsumexp F G2).mat i = (logsumexp F G1).mat i := by
  have hK : 0 < G1.rows := by
    rcases Nat.eq_zero_or_pos G1.rows with h0 | h0
    · rw [h0, Nat.zero_mul] at hi; omega
    · exact h0
  have hC : 0 < G1.cols := by
    rcases Nat.eq_zero_or_pos G1.cols with h0 | h0
    · rw [h0, Nat.mul_zero] at hi; omega
    · exact h0
  have hn : i % G1.cols < G1.cols := Nat.mod_lt _ hC
  simp only [logsumexp, h.1, h.2.1, if_pos hi]
  rw [colshift_shift F h hK hn, h.2.2 i hi]
  ring

theorem logsumexp_idem (F : Kernels α) (G : Matrix α) {i : Nat} (hi : i < G.rows * G.cols) :
    (logsumexp F (logsumexp F G)).mat i = (logsumexp F G).mat i := by
  apply logsumexp_shift F (c := fun n => - colshift F G n) _ hi
  refine ⟨rfl, rfl, fun j hj => ?_⟩
  simp only [logsumexp, if_pos hj]
  ring

end Shift

/-! ## What the revert branch leaves in `gamma_Z_partial` -/

section Gathered

variable {α : Type}

theorem gathered_mat (ntasks : Nat) (w : Nat → Rank α) {i : Nat}
    (hi : i < ntasks * (w 0).n_values_per_task) :
    (gathered ntasks w).mat i
      = ( Rank.gamma_Z_partial (w (i / (w 0).n_values_per_task))).mat
          (i % (w 0).n_values_per_task) := by
  simp only [gathered, MPI_Gather, if_pos hi]

theorem gathered_shape (ntasks : Nat) (w : Nat → Rank α) :
    (gathered ntasks w).rows = (w 0).gamma_Z.rows
      ∧ (gathered ntasks w).cols = (w 0).gamma_Z.cols := ⟨rfl, rfl⟩

end Gathered

section Revert

variable {α : Type} [LinearOrderedField α]

theorem take_step_frame (F : Kernels α) (ntasks : Nat) (w : Nat → Rank α) (r : Nat) :
    (take_step F ntasks w r).n_values_per_task = (w r).n_values_per_task
      ∧ (take_step F ntasks w r).n_obs = (w r).n_obs
      ∧ (take_step F ntasks w r).gamma_Z = (w r).gamma_Z := ⟨rfl, rfl, rfl⟩

theorem logsumexp_cycle_frame (F : Kernels α) (ntasks : Nat) (w : Nat → Rank α) (r : Nat) :
    (logsumexp_cycle F ntasks w r).n_values_per_task = (w r).n_values_per_task
      ∧ (logsumexp_cycle F ntasks w r).n_obs = (w r).n_obs
      ∧ (logsumexp_cycle F ntasks w r).beta_FR = (w r).beta_FR
      ∧ ( Rank.oldstep_partial (logsumexp_cycle F ntasks w r)) = ( Rank.oldstep_partial (w r))
      ∧ (logsumexp_cycle F ntasks w 0).gamma_Z = logsumexp F (gathered ntasks w) := by
  refine ⟨rfl, rfl, rfl, rfl, ?_⟩
  simp [logsumexp_cycle]

theorem iter_main_frame (F : Kernels α) (ntasks : Nat) (alpha0 : Vec α) (w : Nat → Rank α)
    (r : Nat) :
    (iter_main F ntasks alpha0 w r).n_values_per_task = (w r).n_values_per_task
      ∧ (iter_main F ntasks alpha0 w r).n_obs = (w r).n_obs
      ∧ (iter_main F ntasks alpha0 w r).beta_FR = (take_step F ntasks w r).beta_FR
      ∧ ( Rank.oldstep_partial (iter_main F ntasks alpha0 w r))
          = ( Rank.oldstep_partial (take_step F ntasks w r))
      ∧ ( Rank.gamma_Z_partial (iter_main F ntasks alpha0 w r))
          = ( Rank.gamma_Z_partial (logsumexp_cycle F ntasks (take_step F ntasks w) r))
      ∧ (iter_main F ntasks alpha0 w r).oldm
          = (logsumexp_cycle F ntasks (take_step F ntasks w) r).oldm
      ∧ (iter_main F ntasks alpha0 w r).gamma_Z
          = (logsumexp_cycle F ntasks (take_step F ntasks w) r).gamma_Z :=
  ⟨rfl, rfl, rfl, rfl, rfl, rfl, rfl⟩

theorem revert_local_frame (s : Rank α) :
    (revert_local s).n_values_per_task = s.n_values_per_task
      ∧ (revert_local s).n_obs = s.n_obs
      ∧ (revert_local s).gamma_Z = s.gamma_Z := ⟨rfl, rfl, rfl⟩

theorem grad_step_frame (F : Kernels α) (w : Nat → Rank α) (r : Nat) :
    (grad_step F w r).n_values_per_task = (w r).n_values_per_task
      ∧ (grad_step F w r).n_obs = (w r).n_obs
      ∧ (grad_step F w r).gamma_Z = (w r).gamma_Z := ⟨rfl, rfl, rfl⟩

theorem logsumexp_cycle_mat (F : Kernels α) (ntasks : Nat) (w : Nat → Rank α) (r : Nat)
    {l : Nat} (hl : l < (w r).n_values_per_task) :
    ( Rank.gamma_Z_partial (logsumexp_cycle F ntasks w r)).mat l
      = (logsumexp F (gathered ntasks w)).mat (r * (w r).n_values_per_task + l) := by
  simp only [logsumexp_cycle, MPI_Scatter, if_pos hl]

theorem logsumexp_cycle_oldm (F : Kernels α) (ntasks : Nat) (w : Nat → Rank α) (r : Nat)
    {n : Nat} (hn : n < (w r).n_obs) (hc : n < (w 0).gamma_Z.cols) :
    (logsumexp_cycle F ntasks w r).oldm.dat n = colmax (gathered ntasks w) n := by
  have hc' : n < (gathered ntasks w).cols := hc
  simp only [logsumexp_cycle, logsumexp_max, if_pos hn, if_pos hc']

theorem take_step_undo (F : Kernels α) (ntasks : Nat) (w : Nat → Rank α) (r l : Nat) :
    ( Rank.gamma_Z_partial (take_step F ntasks w r)).mat l
        - (if 0 < (take_step F ntasks w r).beta_FR
            then ( Rank.oldstep_partial (take_step F ntasks w r)).mat l else 0)
      = ( Rank.gamma_Z_partial (grad_step F w r)).mat l := by
  simp only [take_step, grad_step, Matrix.add, Matrix.scale]
  by_cases hd : (w r).didreset = true
  · simp only [hd, if_true]
    split_ifs <;> ring
  · have hd' : (w r).didreset = false := by simpa using hd
    simp only [hd', Bool.false_eq_true, if_false]
    split_ifs <;> ring

theorem index_facts {P K W i : Nat} (hi : i < K * (P * W)) :
    0 < W ∧ 0 < P ∧ 0 < K ∧ i < P * (K * W) ∧ i / (K * W) < P ∧ i % (K * W) < K * W
      ∧ i / (K * W) * (K * W) + i % (K * W) = i
      ∧ i % (K * W) % W = i % (P * W) % W ∧ i % (P * W) % W < P * W := by
  have hW : 0 < W := by
    rcases Nat.eq_zero_or_pos W with h | h
    · subst h; simp at hi
    · exact h
  have hP : 0 < P := by
    rcases Nat.eq_zero_or_pos P with h | h
    · subst h; simp at hi
    · exact h
  have hK : 0 < K := by
    rcases Nat.eq_zero_or_pos K with h | h
    · subst h; simp at hi
    · exact h
  have hV : 0 < K * W := Nat.mul_pos hK hW
  have hi' : i < P * (K * W) := by
    have : K * (P * W) = P * (K * W) := by ring
    omega
  refine ⟨hW, hP, hK, hi', ?_, Nat.mod_lt _ hV, Nat.div_add_mod' _ _, ?_, ?_⟩
  · exact Nat.div_lt_of_lt_mul (by rw [Nat.mul_comm]; exact hi')
  · rw [Nat.mod_mod_of_dvd _ (Dvd.intro_left K rfl), Nat.mod_mod_of_dvd _ (Dvd.intro_left P rfl)]
  · calc i % (P * W) % W < W := Nat.mod_lt _ hW
      _ ≤ P * W := Nat.le_mul_of_pos_left W hP

theorem revert_local_mat (s : Rank α) {l : Nat}
    (hl : l < ( Rank.gamma_Z_partial s).rows * ( Rank.gamma_Z_partial s).cols) :
    ( Rank.gamma_Z_partial (revert_local s)).mat l
      = ( Rank.gamma_Z_partial s).mat l + s.oldm.dat (l % ( Rank.gamma_Z_partial s).cols)
        - (if 0 < s.beta_FR then ( Rank.oldstep_partial s).mat l else 0) := by
  unfold revert_local
  simp only []
  split_ifs
  · simp only [Matrix.sub, revert_step, if_pos hl]
  · simp only [revert_step, if_pos hl]; ring

theorem revert_gathered (F : Kernels α) (ntasks K W : Nat) (alpha0 : Vec α)
    (w : Nat → Rank α) (hw : Shaped ntasks K W w) :
    ColumnShift (gathered ntasks (grad_step F w))
      (gathered ntasks (fun q => revert_local (iter_main F ntasks alpha0 w q)))
      (fun n => colmax (gathered ntasks (take_step F ntasks w)) (n % W)
        - colshift F (gathered ntasks (take_step F ntasks w)) n) := by
  obtain ⟨hr, hg1, hg2⟩ := hw
  have hV0 : (w 0).n_values_per_task = K * W := (hr 0).2.2.1
  -- shapes of the three gathered matrices
  have eG : (gathered ntasks (grad_step F w)).rows = K
      ∧ (gathered ntasks (grad_step F w)).cols = ntasks * W := by
    rw [(gathered_shape _ _).1, (gathered_shape _ _).2, (grad_step_frame F w 0).2.2]
    exact ⟨hg1, hg2⟩
  have eT : (gathered ntasks (take_step F ntasks w)).rows = K
      ∧ (gathered ntasks (take_step F ntasks w)).cols = ntasks * W := by
    rw [(gathered_shape _ _).1, (gathered_shape _ _).2, (take_step_frame F ntasks w 0).2.2]
    exact ⟨hg1, hg2⟩
  have eR : (gathered ntasks (fun q => revert_local (iter_main F ntasks alpha0 w q))).rows = K
      ∧ (gathered ntasks (fun q => revert_local (iter_main F ntasks alpha0 w q))).cols
          = ntasks * W := by
    rw [(gathered_shape _ _).1, (gathered_shape _ _).2]
    try simp only []
    rw [(revert_local_frame _).2.2, (iter_main_frame F ntasks alpha0 w 0).2.2.2.2.2.2,
      (logsumexp_cycle_frame F ntasks _ 0).2.2.2.2]
    exact eT
  refine ⟨eR.1.trans eG.1.symm, eR.2.trans eG.2.symm, ?_⟩
  intro i hi
  rw [eG.1, eG.2] at hi
  rw [eG.2]
  obtain ⟨hW, hP, hK, hi', hq, hl, hdm, hmod, hmodlt⟩ := index_facts hi
  have hA := gathered_mat ntasks (fun q => revert_local (iter_main F ntasks alpha0 w q))
    (i := i) (by
      try simp only []
      rw [(revert_local_frame _).1, (iter_main_frame F ntasks alpha0 w 0).1, hV0]; exact hi')
  try simp only [] at hA
  rw [(revert_local_frame _).1, (iter_main_frame F ntasks alpha0 w 0).1, hV0] at hA
  have hB := gathered_mat ntasks (grad_step F w) (i := i) (by
    rw [(grad_step_frame F w 0).1, hV0]; exact hi')
  rw [(grad_step_frame F w 0).1, hV0] at hB
  have hT := gathered_mat ntasks (take_step F ntasks w) (i := i) (by
    rw [(take_step_frame F ntasks w 0).1, hV0]; exact hi')
  rw [(take_step_frame F ntasks w 0).1, hV0] at hT
  rw [hA, hB, ← take_step_undo F ntasks w]
  generalize i / (K * W) = q at *
  generalize i % (K * W) = l at *
  obtain ⟨hrq1, hrq2, hrq3, hrq4⟩ := hr q
  obtain ⟨-, -, fbeta, fold, fgam, foldm, -⟩ := iter_main_frame F ntasks alpha0 w q
  have hsh := iter_main_shape F ntasks alpha0 w q
  -- the slab of rank `q` after the main path
  have hm : ( Rank.gamma_Z_partial (iter_main F ntasks alpha0 w q)).mat l
      = (logsumexp F (gathered ntasks (take_step F ntasks w))).mat i := by
    rw [fgam, logsumexp_cycle_mat F ntasks (take_step F ntasks w) q (l := l)
      (by rw [(take_step_frame F ntasks w q).1, hrq3]; exact hl),
      (take_step_frame F ntasks w q).1, hrq3, hdm]
  have hlse : (logsumexp F (gathered ntasks (take_step F ntasks w))).mat i
      = (gathered ntasks (take_step F ntasks w)).mat i
        - colshift F (gathered ntasks (take_step F ntasks w)) (i % (ntasks * W)) := by
    simp only [logsumexp, eT.1, eT.2, if_pos hi]
  have hom : (iter_main F ntasks alpha0 w q).oldm.dat (l % W)
      = colmax (gathered ntasks (take_step F ntasks w)) (i % (ntasks * W) % W) := by
    rw [foldm, logsumexp_cycle_oldm F ntasks (take_step F ntasks w) q (n := l % W)
      (by rw [(take_step_frame F ntasks w q).2.1, hrq4, hmod]; exact hmodlt)
      (by rw [(take_step_frame F ntasks w 0).2.2, hg2, hmod]; exact hmodlt), hmod]
  have hrev := revert_local_mat (iter_main F ntasks alpha0 w q) (l := l)
    (by rw [hsh.1, hsh.2, hrq1, hrq2]; exact hl)
  rw [hsh.2, hrq2, fbeta, fold] at hrev
  rw [hrev, hm, hlse, hT, hom]
  ring

theorem iter_revert_mat (F : Kernels α) (ntasks K W : Nat) (alpha0 : Vec α)
    (w : Nat → Rank α) (hw : Shaped ntasks K W w) {r l : Nat} (hr : r < ntasks)
    (hl : l < K * W) :
    ( Rank.gamma_Z_partial (iter_revert F ntasks alpha0 (iter_main F ntasks alpha0 w) r)).mat l
      = (logsumexp F (gathered ntasks (grad_step F w))).mat (r * (K * W) + l) := by
  have hs := revert_gathered F ntasks K W alpha0 w hw
  have hV : (w r).n_values_per_task = K * W := (hw.1 r).2.2.1
  have e : ( Rank.gamma_Z_partial (iter_revert F ntasks alpha0 (iter_main F ntasks alpha0 w) r))
      = ( Rank.gamma_Z_partial (logsumexp_cycle F ntasks
          (fun q => revert_local (iter_main F ntasks alpha0 w q)) r)) := rfl
  rw [e, logsumexp_cycle_mat F ntasks _ r (l := l) (by
    try simp only []
    rw [(revert_local_frame _).1, (iter_main_frame F ntasks alpha0 w r).1, hV]; exact hl)]
  try simp only []
  rw [(revert_local_frame _).1, (iter_main_frame F ntasks alpha0 w r).1, hV]
  apply logsumexp_shift F hs
  have eG : (gathered ntasks (grad_step F w)).rows = K
      ∧ (gathered ntasks (grad_step F w)).cols = ntasks * W := by
    rw [(gathered_shape _ _).1, (gathered_shape _ _).2, (grad_step_frame F w 0).2.2]
    exact hw.2
  rw [eG.1, eG.2]
  calc r * (K * W) + l < r * (K * W) + K * W := by omega
    _ = (r + 1) * (K * W) := by ring
    _ ≤ ntasks * (K * W) := Nat.mul_le_mul_right _ hr
    _ = K * (ntasks * W) := by ring

end Revert

/-! ## The shapes along a run -/

section ShapedRun

variable {α : Type} [LinearOrderedField α]

theorem iter_revert_frame (F : Kernels α) (ntasks : Nat) (alpha0 : Vec α) (w : Nat → Rank α)
    (r : Nat) :
    (iter_revert F ntasks alpha0 w r).n_values_per_task = (w r).n_values_per_task
      ∧ (iter_revert F ntasks alpha0 w r).n_obs = (w r).n_obs := ⟨rfl, rfl⟩

theorem iteration_frame (F : Kernels α) (ntasks : Nat) (alpha0 : Vec α) (w : Nat → Rank α)
    (r : Nat) :
    (iteration F ntasks alpha0 w r).n_values_per_task = (w r).n_values_per_task
      ∧ (iteration F ntasks alpha0 w r).n_obs = (w r).n_obs := by
  have h1 := iter_main_frame F ntasks alpha0 w r
  have h2 := iter_revert_frame F ntasks alpha0 (iter_main F ntasks alpha0 w) r
  unfold iteration
  simp only []
  split_ifs
  · exact ⟨h2.1.trans h1.1, h2.2.trans h1.2.1⟩
  · exact ⟨h1.1, h1.2.1⟩

theorem final_logsumexp_frame (F : Kernels α) (ntasks : Nat) (w : Nat → Rank α) (r : Nat) :
    (final_logsumexp F ntasks w r).n_values_per_task = (w r).n_values_per_task
      ∧ (final_logsumexp F ntasks w r).n_obs = (w r).n_obs := by
  unfold final_logsumexp
  simp only []
  split_ifs <;> exact ⟨rfl, rfl⟩

theorem iteration_Shaped (F : Kernels α) (ntasks K W : Nat) (alpha0 : Vec α)
    (w : Nat → Rank α) (hw : Shaped ntasks K W w) :
    Shaped ntasks K W (iteration F ntasks alpha0 w) := by
  obtain ⟨hr, hg1, hg2⟩ := hw
  have hg := iteration_gamma_Z_shape F ntasks alpha0 w
  refine ⟨fun r => ?_, hg.1.trans hg1, hg.2.trans hg2⟩
  have hs := iteration_shape F ntasks alpha0 w r
  have hf := iteration_frame F ntasks alpha0 w r
  obtain ⟨h1, h2, h3, h4⟩ := hr r
  exact ⟨hs.1.trans h1, hs.2.trans h2, hf.1.trans h3, hf.2.trans h4⟩

theorem loop_body_Shaped (F : Kernels α) (ntasks K W : Nat) (alpha0 : Vec α) (tol : α)
    (k : Nat) (w : Nat → Rank α) (hw : Shaped ntasks K W w) :
    Shaped ntasks K W (loop_body F ntasks alpha0 tol k w) := by
  have hi := iteration_Shaped F ntasks K W alpha0 w hw
  have hg := loop_body_gamma_Z_shape F ntasks alpha0 tol k w
  refine ⟨fun r => ?_, hg.1.trans hw.2.1, hg.2.trans hw.2.2⟩
  have hs := loop_body_shape F ntasks alpha0 tol k w r
  obtain ⟨h1, h2, h3, h4⟩ := hw.1 r
  refine ⟨hs.1.trans h1, hs.2.trans h2, ?_⟩
  rcases loop_body_cases F ntasks alpha0 tol k w r with ⟨_, e⟩ | ⟨_, _, e⟩ | ⟨_, _, e⟩
  · rw [e]; exact ⟨h3, h4⟩
  · rw [e]
    show (final_logsumexp F ntasks (iteration F ntasks alpha0 w) r).n_values_per_task = K * W
      ∧ (final_logsumexp F ntasks (iteration F ntasks alpha0 w) r).n_obs = ntasks * W
    rw [(final_logsumexp_frame F ntasks _ r).1, (final_logsumexp_frame F ntasks _ r).2]
    exact ⟨(hi.1 r).2.2.1, (hi.1 r).2.2.2⟩
  · rw [e]; exact ⟨(hi.1 r).2.2.1, (hi.1 r).2.2.2⟩

theorem loop_Shaped (F : Kernels α) (ntasks K W : Nat) (alpha0 : Vec α) (tol : α)
    (n k : Nat) (w : Nat → Rank α) (hw : Shaped ntasks K W w) :
    Shaped ntasks K W (loop F ntasks alpha0 tol n k w) := by
  induction n generalizing k w with
  | zero => exact hw
  | succ n ih =>
    simp only [loop]
    exact ih (k + 1) _ (loop_body_Shaped F ntasks K W alpha0 tol k w hw)

theorem n_groups_lt (rows : Nat) : n_groups rows < 65536 :=
  Nat.mod_lt _ (by norm_num)

theorem setup_Shaped (F : Kernels α) (ntasks : Nat) (logl_full : Matrix α)
    (log_times_observed_full alpha0 : Vec α)
    (hdiv : ntasks * (n_obs log_times_observed_full.size / ntasks)
      = n_obs log_times_observed_full.size)
    (hW : n_obs log_times_observed_full.size / ntasks < 65536) :
    Shaped ntasks (n_groups logl_full.rows) (n_obs log_times_observed_full.size / ntasks)
      (setup F ntasks logl_full log_times_observed_full alpha0) := by
  have hK := n_groups_lt logl_full.rows
  have e1 : n_obs_per_task (n_obs log_times_observed_full.size) ntasks
      = n_obs log_times_observed_full.size / ntasks := Nat.mod_eq_of_lt hW
  have e2 : n_values_per_task (n_obs log_times_observed_full.size) ntasks
      (n_groups logl_full.rows)
      = n_groups logl_full.rows * (n_obs log_times_observed_full.size / ntasks) := by
    unfold n_values_per_task
    rw [e1, Nat.mul_comm]
    apply Nat.mod_eq_of_lt
    calc n_groups logl_full.rows * (n_obs log_times_observed_full.size / ntasks)
        < 65536 * 65536 := Nat.mul_lt_mul'' hK hW
      _ = 4294967296 := by norm_num
  refine ⟨fun r => ⟨rfl, e1, e2, hdiv.symm⟩, ?_, ?_⟩
  · exact setup_gamma_Z_rows F ntasks logl_full log_times_observed_full alpha0
  · rw [setup_gamma_Z_cols, hdiv]

end ShapedRun

/-! ## The slabs after one pass through the loop -/

section GatheredEntry

variable {α : Type}

theorem gathered_entry (ntasks K W : Nat) (w : Nat → Rank α)
    (hV : (w 0).n_values_per_task = K * W) {i : Nat} (hi : i < K * (ntasks * W)) :
    (gathered ntasks w).mat i = ( Rank.gamma_Z_partial (w (i / (K * W)))).mat (i % (K * W)) := by
  have h := gathered_mat ntasks w (i := i) (by rw [hV]; exact (index_facts hi).2.2.2.1)
  rw [hV] at h
  exact h

end GatheredEntry

section OnePass

variable {α : Type} [LinearOrderedField α]

theorem logsumexp_congr (F : Kernels α) (G1 G2 : Matrix α) (hr : G2.rows = G1.rows)
    (hc : G2.cols = G1.cols) (hm : ∀ i, i < G1.rows * G1.cols → G2.mat i = G1.mat i)
    {i : Nat} (hi : i < G1.rows * G1.cols) :
    (logsumexp F G2).mat i = (logsumexp F G1).mat i := by
  apply logsumexp_shift F (c := fun _ => 0) _ hi
  exact ⟨hr, hc, fun j hj => by rw [hm j hj, add_zero]⟩

theorem slab_index {P K W r l : Nat} (hr : r < P) (hl : l < K * W) :
    r * (K * W) + l < K * (P * W) ∧ r * (K * W) + l < P * (K * W)
      ∧ (r * (K * W) + l) / (K * W) = r ∧ (r * (K * W) + l) % (K * W) = l := by
  have h1 : r * (K * W) + l < P * (K * W) :=
    calc r * (K * W) + l < r * (K * W) + K * W := by omega
      _ = (r + 1) * (K * W) := by ring
      _ ≤ P * (K * W) := Nat.mul_le_mul_right _ hr
  refine ⟨?_, h1, flat_div r hl, flat_mod r hl⟩
  have : K * (P * W) = P * (K * W) := by ring
  omega

theorem iter_main_mat (F : Kernels α) (ntasks K W : Nat) (alpha0 : Vec α)
    (w : Nat → Rank α) (hw : Shaped ntasks K W w) (r : Nat) {l : Nat} (hl : l < K * W) :
    ( Rank.gamma_Z_partial (iter_main F ntasks alpha0 w r)).mat l
      = (logsumexp F (gathered ntasks (take_step F ntasks w))).mat (r * (K * W) + l) := by
  have hV : (w r).n_values_per_task = K * W := (hw.1 r).2.2.1
  rw [(iter_main_frame F ntasks alpha0 w r).2.2.2.2.1,
    logsumexp_cycle_mat F ntasks (take_step F ntasks w) r (l := l)
      (by rw [(take_step_frame F ntasks w r).1, hV]; exact hl),
    (take_step_frame F ntasks w r).1, hV]

theorem take_step_first (F : Kernels α) (ntasks : Nat) (w : Nat → Rank α) (r l : Nat)
    (h0 : ( Rank.oldstep_partial (w r)).mat l = 0) :
    ( Rank.gamma_Z_partial (take_step F ntasks w r)).mat l
      = ( Rank.gamma_Z_partial (grad_step F w r)).mat l := by
  rw [← take_step_undo F ntasks w r l]
  have : ( Rank.oldstep_partial (take_step F ntasks w r)).mat l = 0 := by
    simp only [take_step]
    split_ifs <;> simp [Matrix.scale, h0]
  rw [this]
  simp

theorem gathered_grad_shape (F : Kernels α) (ntasks K W : Nat) (w : Nat → Rank α)
    (hw : Shaped ntasks K W w) :
    (gathered ntasks (grad_step F w)).rows = K
      ∧ (gathered ntasks (grad_step F w)).cols = ntasks * W := by
  rw [(gathered_shape _ _).1, (gathered_shape _ _).2, (grad_step_frame F w 0).2.2]
  exact hw.2

theorem gathered_take_shape (F : Kernels α) (ntasks K W : Nat) (w : Nat → Rank α)
    (hw : Shaped ntasks K W w) :
    (gathered ntasks (take_step F ntasks w)).rows = K
      ∧ (gathered ntasks (take_step F ntasks w)).cols = ntasks * W := by
  rw [(gathered_shape _ _).1, (gathered_shape _ _).2, (take_step_frame F ntasks w 0).2.2]
  exact hw.2

/-- In the first pass after setup, where `oldstep_partial` is zero, the main path leaves
the same slabs as the plain gradient step followed by the normalization. -/
theorem iter_main_first (F : Kernels α) (ntasks K W : Nat) (alpha0 : Vec α)
    (w : Nat → Rank α) (hw : Shaped ntasks K W w)
    (h0 : ∀ r l, ( Rank.oldstep_partial (w r)).mat l = 0) {r l : Nat} (hr : r < ntasks)
    (hl : l < K * W) :
    ( Rank.gamma_Z_partial (iter_main F ntasks alpha0 w r)).mat l
      = (logsumexp F (gathered ntasks (grad_step F w))).mat (r * (K * W) + l) := by
  rw [iter_main_mat F ntasks K W alpha0 w hw r hl]
  have eG := gathered_grad_shape F ntasks K W w hw
  have eT := gathered_take_shape F ntasks K W w hw
  apply logsumexp_congr F _ _ (eT.1.trans eG.1.symm) (eT.2.trans eG.2.symm)
  · intro i hi
    rw [eG.1, eG.2] at hi
    rw [gathered_entry ntasks K W _ (by
        rw [(take_step_frame F ntasks w 0).1]; exact (hw.1 0).2.2.1) hi,
      gathered_entry ntasks K W _ (by
        rw [(grad_step_frame F w 0).1]; exact (hw.1 0).2.2.1) hi]
    exact take_step_first F ntasks w _ _ (h0 _ _)
  · rw [eG.1, eG.2]
    exact (slab_index hr hl).1

theorem iteration_regressed_mat (F : Kernels α) (ntasks K W : Nat) (alpha0 : Vec α)
    (w : Nat → Rank α) (hw : Shaped ntasks K W w) {r l : Nat} (hr : r < ntasks)
    (hl : l < K * W)
    (hreg : (iter_main F ntasks alpha0 w r).bound < (iter_main F ntasks alpha0 w r).oldbound) :
    ( Rank.gamma_Z_partial (iteration F ntasks alpha0 w r)).mat l
      = (logsumexp F (gathered ntasks (grad_step F w))).mat (r * (K * W) + l) := by
  rw [← iter_revert_mat F ntasks K W alpha0 w hw hr hl]
  unfold iteration
  simp only []
  rw [if_pos hreg]

theorem iteration_accepted_mat (F : Kernels α) (ntasks : Nat) (alpha0 : Vec α)
    (w : Nat → Rank α) {r : Nat}
    (hreg : ¬ (iter_main F ntasks alpha0 w r).bound < (iter_main F ntasks alpha0 w r).oldbound) :
    ( Rank.gamma_Z_partial (iteration F ntasks alpha0 w r))
      = ( Rank.gamma_Z_partial (iter_main F ntasks alpha0 w r)) := by
  unfold iteration
  simp only []
  rw [if_neg hreg]

/-- After the first pass, regression or not, the slabs are the normalization of the
slabs at the start plus the gradient step. -/
theorem iteration_first (F : Kernels α) (ntasks K W : Nat) (alpha0 : Vec α)
    (w : Nat → Rank α) (hw : Shaped ntasks K W w)
    (h0 : ∀ r l, ( Rank.oldstep_partial (w r)).mat l = 0) {r l : Nat} (hr : r < ntasks)
    (hl : l < K * W) :
    ( Rank.gamma_Z_partial (iteration F ntasks alpha0 w r)).mat l
      = (logsumexp F (gathered ntasks (grad_step F w))).mat (r * (K * W) + l) := by
  by_cases hreg : (iter_main F ntasks alpha0 w r).bound
      < (iter_main F ntasks alpha0 w r).oldbound
  · exact iteration_regressed_mat F ntasks K W alpha0 w hw hr hl hreg
  · rw [iteration_accepted_mat F ntasks alpha0 w hreg]
    exact iter_main_first F ntasks K W alpha0 w hw h0 hr hl

end OnePass

/-! ## The matrix returned when `maxiters = 1` -/

section OnePassResult

variable {α : Type} [LinearOrderedField α]

theorem loop_body_slab (F : Kernels α) (ntasks : Nat) (alpha0 : Vec α) (tol : α) (k : Nat)
    (w : Nat → Rank α) (r : Nat) (h : (w r).returned = none) :
    ( Rank.gamma_Z_partial (loop_body F ntasks alpha0 tol k w r))
      = ( Rank.gamma_Z_partial (iteration F ntasks alpha0 w r)) := by
  rcases loop_body_cases F ntasks alpha0 tol k w r with ⟨h1, _⟩ | ⟨_, _, e⟩ | ⟨_, _, e⟩
  · rw [h] at h1; exact absurd h1 (by simp)
  · rw [e]
    exact (final_logsumexp_slab F ntasks _ r).1
  · rw [e]

/-- When the slabs of all ranks are the blocks of `logsumexp` of one matrix `Z`, gathering
them and normalizing again gives `logsumexp` of `Z`. -/
theorem logsumexp_gathered_of_slabs (F : Kernels α) (ntasks K W : Nat) (w : Nat → Rank α)
    (hw : Shaped ntasks K W w) (Z : Matrix α) (hZ1 : Z.rows = K) (hZ2 : Z.cols = ntasks * W)
    (h : ∀ r l, r < ntasks → l < K * W →
      ( Rank.gamma_Z_partial (w r)).mat l = (logsumexp F Z).mat (r * (K * W) + l))
    {i : Nat} (hi : i < K * (ntasks * W)) :
    (logsumexp F (gathered ntasks w)).mat i = (logsumexp F Z).mat i := by
  have hi' : i < Z.rows * Z.cols := by rw [hZ1, hZ2]; exact hi
  rw [← logsumexp_idem F Z hi']
  have e1 : (logsumexp F Z).rows = K := hZ1
  have e2 : (logsumexp F Z).cols = ntasks * W := hZ2
  apply logsumexp_congr F _ _
  · rw [(gathered_shape _ _).1, hw.2.1, e1]
  · rw [(gathered_shape _ _).2, hw.2.2, e2]
  · intro j hj
    rw [e1, e2] at hj
    obtain ⟨-, -, -, -, hq, hl, hdm, -, -⟩ := index_facts hj
    rw [gathered_entry ntasks K W w (hw.1 0).2.2.1 hj, h _ _ hq hl, hdm]
  · rw [e1, e2]; exact hi

theorem rcg_optl_mpi_one_pass (F : Kernels α) (ntasks : Nat) (logl_full : Matrix α)
    (log_times_observed_full alpha0 : Vec α) (tol : α)
    (hdiv : ntasks * (n_obs log_times_observed_full.size / ntasks)
      = n_obs log_times_observed_full.size)
    (hW : n_obs log_times_observed_full.size / ntasks < 65536) {i : Nat}
    (hi : i < n_groups logl_full.rows * n_obs log_times_observed_full.size) :
    (rcg_optl_mpi F ntasks logl_full log_times_observed_full alpha0 tol 1 0).gamma_Z.mat i
      = (logsumexp F (gathered ntasks
          (grad_step F (setup F ntasks logl_full log_times_observed_full alpha0)))).mat i := by
  have hw := setup_Shaped F ntasks logl_full log_times_observed_full alpha0 hdiv hW
  have hit := iteration_Shaped F ntasks _ _ alpha0 _ hw
  have hlb := loop_body_Shaped F ntasks _ _ alpha0 tol 0 _ hw
  have eZ := gathered_grad_shape F ntasks _ _ _ hw
  have hi' : i < n_groups logl_full.rows
      * (ntasks * (n_obs log_times_observed_full.size / ntasks)) := by
    rw [hdiv]; exact hi
  have hslab : ∀ r l, r < ntasks →
      l < n_groups logl_full.rows * (n_obs log_times_observed_full.size / ntasks) →
      ( Rank.gamma_Z_partial (iteration F ntasks alpha0
        (setup F ntasks logl_full log_times_observed_full alpha0) r)).mat l
      = (logsumexp F (gathered ntasks
          (grad_step F (setup F ntasks logl_full log_times_observed_full alpha0)))).mat
          (r * (n_groups logl_full.rows * (n_obs log_times_observed_full.size / ntasks)) + l) :=
    fun r l hr hl => iteration_first F ntasks _ _ alpha0 _ hw (fun _ _ => rfl) hr hl
  have hslab2 : ∀ r l, r < ntasks →
      l < n_groups logl_full.rows * (n_obs log_times_observed_full.size / ntasks) →
      ( Rank.gamma_Z_partial (loop_body F ntasks alpha0 tol 0
        (setup F ntasks logl_full log_times_observed_full alpha0) r)).mat l
      = (logsumexp F (gathered ntasks
          (grad_step F (setup F ntasks logl_full log_times_observed_full alpha0)))).mat
          (r * (n_groups logl_full.rows * (n_obs log_times_observed_full.size / ntasks)) + l) := by
    intro r l hr hl
    rw [loop_body_slab F ntasks alpha0 tol 0 _ r (setup_returned F ntasks _ _ _ r)]
    exact hslab r l hr hl
  have e : rcg_optl_mpi F ntasks logl_full log_times_observed_full alpha0 tol 1 0
      = after_loop F ntasks (loop_body F ntasks alpha0 tol 0
          (setup F ntasks logl_full log_times_observed_full alpha0)) 0 := rfl
  rw [e]
  rcases loop_body_cases F ntasks alpha0 tol 0
      (setup F ntasks logl_full log_times_observed_full alpha0) 0
    with ⟨h1, _⟩ | ⟨_, _, e2⟩ | ⟨_, _, e2⟩
  · rw [setup_returned] at h1; exact absurd h1 (by simp)
  · have hret : (loop_body F ntasks alpha0 tol 0
        (setup F ntasks logl_full log_times_observed_full alpha0) 0).returned.isSome := by
      rw [e2]; rfl
    unfold after_loop
    rw [if_pos hret, e2]
    show (final_logsumexp F ntasks (iteration F ntasks alpha0 _) 0).gamma_Z.mat i = _
    rw [final_logsumexp_gamma_Z]
    exact logsumexp_gathered_of_slabs F ntasks _ _ _ hit _ eZ.1 eZ.2 hslab hi'
  · have hret : ¬ (loop_body F ntasks alpha0 tol 0
        (setup F ntasks logl_full log_times_observed_full alpha0) 0).returned.isSome := by
      rw [e2, iteration_returned, setup_returned]; simp
    unfold after_loop
    rw [if_neg hret, final_logsumexp_gamma_Z]
    exact logsumexp_gathered_of_slabs F ntasks _ _ _ hlb _ eZ.1 eZ.2 hslab2 hi'

end OnePassResult

/-! ## The serial optimizer after one pass -/

section SerialOnePass

variable {α : Type} [LinearOrderedField α]

theorem mat_main_gamma (F : Kernels α) (logl : Matrix α) (lto alpha0 : Vec α) (bc : α)
    (s : Serial α) :
    ∃ T : Matrix α, T.rows = s.gamma_Z.rows ∧ T.cols = s.gamma_Z.cols
      ∧ (mat_main F logl lto alpha0 bc s).gamma_Z = logsumexp F T
      ∧ (mat_main F logl lto alpha0 bc s).oldm = logsumexp_max T s.oldm
      ∧ ∀ l, T.mat l - (if 0 < (mat_main F logl lto alpha0 bc s).beta_FR
            then (mat_main F logl lto alpha0 bc s).oldstep.mat l else 0)
          = (mat_grad_step F logl s).mat l := by
  refine ⟨s.gamma_Z.add (if s.didreset then mixt_negnatgrad_step F s.gamma_Z s.N_k logl s.step
    else if 0 < mixt_negnatgrad F s.gamma_Z s.N_k logl s.step / s.oldnorm then
      (mixt_negnatgrad_step F s.gamma_Z s.N_k logl s.step).add
        (if s.didreset then s.oldstep.scale 0
          else if 0 < mixt_negnatgrad F s.gamma_Z s.N_k logl s.step / s.oldnorm then
            s.oldstep.scale (mixt_negnatgrad F s.gamma_Z s.N_k logl s.step / s.oldnorm)
          else s.oldstep)
    else mixt_negnatgrad_step F s.gamma_Z s.N_k logl s.step), rfl, rfl, rfl, rfl, ?_⟩
  intro l
  simp only [mat_main, mat_grad_step, Matrix.add, Matrix.scale]
  by_cases hd : s.didreset = true
  · simp only [hd, if_true]
    split_ifs <;> ring
  · have hd' : s.didreset = false := by simpa using hd
    simp only [hd', Bool.false_eq_true, if_false]
    split_ifs <;> ring

theorem mat_iteration_gamma (F : Kernels α) (logl : Matrix α) (lto alpha0 : Vec α) (bc : α)
    (s : Serial α) (h0 : ∀ l, s.oldstep.mat l = 0) {i : Nat}
    (hi : i < s.gamma_Z.rows * s.gamma_Z.cols) :
    (mat_iteration F logl lto alpha0 bc s).gamma_Z.rows = s.gamma_Z.rows
      ∧ (mat_iteration F logl lto alpha0 bc s).gamma_Z.cols = s.gamma_Z.cols
      ∧ (mat_iteration F logl lto alpha0 bc s).gamma_Z.mat i
        = (logsumexp F (mat_grad_step F logl s)).mat i := by
  obtain ⟨T, hT1, hT2, hg, hm, hu⟩ := mat_main_gamma F logl lto alpha0 bc s
  have hold : ∀ l, (mat_main F logl lto alpha0 bc s).oldstep.mat l = 0 := by
    intro l
    simp only [mat_main]
    split_ifs <;> simp [Matrix.scale, h0]
  have hZ : (mat_grad_step F logl s).rows = s.gamma_Z.rows
      ∧ (mat_grad_step F logl s).cols = s.gamma_Z.cols := ⟨rfl, rfl⟩
  have hi' : i < (mat_grad_step F logl s).rows * (mat_grad_step F logl s).cols := hi
  unfold mat_iteration
  simp only []
  split_ifs with hreg
  · -- regression: the revert branch
    have hshift : ColumnShift (mat_grad_step F logl s)
        (if 0 < (mat_main F logl lto alpha0 bc s).beta_FR then
          (revert_step (mat_main F logl lto alpha0 bc s).gamma_Z
            (mat_main F logl lto alpha0 bc s).oldm).sub
            (mat_main F logl lto alpha0 bc s).oldstep
          else revert_step (mat_main F logl lto alpha0 bc s).gamma_Z
            (mat_main F logl lto alpha0 bc s).oldm)
        (fun n => colmax T n - colshift F T n) := by
      have hsh1 : (if 0 < (mat_main F logl lto alpha0 bc s).beta_FR then
          (revert_step (mat_main F logl lto alpha0 bc s).gamma_Z
            (mat_main F logl lto alpha0 bc s).oldm).sub
            (mat_main F logl lto alpha0 bc s).oldstep
          else revert_step (mat_main F logl lto alpha0 bc s).gamma_Z
            (mat_main F logl lto alpha0 bc s).oldm).rows = s.gamma_Z.rows := by
        split_ifs <;> simp [Matrix.sub, revert_step, hg, logsumexp, hT1]
      have hsh2 : (if 0 < (mat_main F logl lto alpha0 bc s).beta_FR then
          (revert_step (mat_main F logl lto alpha0 bc s).gamma_Z
            (mat_main F logl lto alpha0 bc s).oldm).sub
            (mat_main F logl lto alpha0 bc s).oldstep
          else revert_step (mat_main F logl lto alpha0 bc s).gamma_Z
            (mat_main F logl lto alpha0 bc s).oldm).cols = s.gamma_Z.cols := by
        split_ifs <;> simp [Matrix.sub, revert_step, hg, logsumexp, hT2]
      refine ⟨hsh1, hsh2, fun j hj => ?_⟩
      have hj' : j < T.rows * T.cols := by rw [hT1, hT2]; exact hj
      have hC : 0 < s.gamma_Z.cols := by
        rcases Nat.eq_zero_or_pos s.gamma_Z.cols with h | h
        · have hj2 : j < s.gamma_Z.rows * s.gamma_Z.cols := hj
          rw [h, Nat.mul_zero] at hj2; omega
        · exact h
      have hjm : j % T.cols < T.cols := by rw [hT2]; exact Nat.mod_lt _ hC
      rw [hZ.2, ← hT2, ← hu j]
      split_ifs with hb
      · simp only [Matrix.sub, revert_step, hg, hm, logsumexp, logsumexp_max, if_pos hj',
          if_pos hjm]
        ring
      · simp only [revert_step, hg, hm, logsumexp, logsumexp_max, if_pos hj',
          if_pos hjm]
        ring
    refine ⟨?_, ?_, ?_⟩
    · show (logsumexp F _).rows = _
      exact hshift.1
    · show (logsumexp F _).cols = _
      exact hshift.2.1
    · show (logsumexp F _).mat i = _
      exact logsumexp_shift F hshift hi'
  · refine ⟨by rw [hg]; exact hT1, by rw [hg]; exact hT2, ?_⟩
    show (mat_main F logl lto alpha0 bc s).gamma_Z.mat i = _
    rw [hg]
    apply logsumexp_congr F _ _ (hT1.trans hZ.1.symm) (hT2.trans hZ.2.symm) _ hi'
    intro j _
    have := hu j
    rw [hold j] at this
    simpa using this

theorem rcg_optl_mat_one_pass (F : Kernels α) (logl : Matrix α) (lto alpha0 : Vec α)
    (bc tol : α) {i : Nat} (hi : i < logl.rows * logl.cols) :
    (rcg_optl_mat F logl lto alpha0 bc tol 1).mat i
      = (logsumexp F (mat_grad_step F logl (mat_init F logl lto alpha0))).mat i := by
  have h := mat_iteration_gamma F logl lto alpha0 bc (mat_init F logl lto alpha0)
    (fun _ => rfl) (i := i) hi
  obtain ⟨h1, h2, h3⟩ := h
  have hfin : (logsumexp F (mat_iteration F logl lto alpha0 bc
      (mat_init F logl lto alpha0)).gamma_Z).mat i
      = (logsumexp F (mat_grad_step F logl (mat_init F logl lto alpha0))).mat i := by
    have hi' : i < (mat_grad_step F logl (mat_init F logl lto alpha0)).rows
        * (mat_grad_step F logl (mat_init F logl lto alpha0)).cols := hi
    rw [← logsumexp_idem F _ hi']
    apply logsumexp_congr F (logsumexp F (mat_grad_step F logl (mat_init F logl lto alpha0))) _
      h1 h2 _ hi'
    intro j hj
    exact (mat_iteration_gamma F logl lto alpha0 bc (mat_init F logl lto alpha0)
      (fun _ => rfl) (i := j) hj).2.2
  unfold rcg_optl_mat
  simp only [mat_loop, mat_loop_body]
  have hnone : (mat_init F logl lto alpha0).returned.isSome = false := rfl
  simp only [hnone, Bool.false_eq_true, if_false]
  split_ifs with hc hr hr
  · exact hfin
  · exact absurd rfl hr
  · have : (mat_iteration F logl lto alpha0 bc (mat_init F logl lto alpha0)).returned = none := by
      unfold mat_iteration
      simp only []
      split_ifs <;> rfl
    rw [this] at hr
    exact absurd hr (by simp)
  · exact hfin

end SerialOnePass

/-! ## When a rank returns -/

section Return

variable {α : Type} [LinearOrderedField α]

theorem loop_frozen (F : Kernels α) (ntasks : Nat) (alpha0 : Vec α) (tol : α) (n k : Nat)
    (w : Nat → Rank α) (r : Nat) (h : (w r).returned.isSome) :
    loop F ntasks alpha0 tol n k w r = w r := by
  induction n generalizing k w with
  | zero => rfl
  | succ n ih =>
    have hb : loop_body F ntasks alpha0 tol k w r = w r := by
      unfold loop_body
      simp only []
      rw [if_pos h]
    simp only [loop]
    rw [ih (k + 1) _ (by rw [hb]; exact h), hb]

theorem after_loop_returned (F : Kernels α) (ntasks : Nat) (w : Nat → Rank α) (r : Nat) :
    (after_loop F ntasks w r).returned = (w r).returned := by
  unfold after_loop final_logsumexp
  simp only []
  split_ifs <;> rfl

theorem loop_returned_ge (F : Kernels α) (ntasks : Nat) (alpha0 : Vec α) (tol : α) (n k : Nat)
    (w : Nat → Rank α) (r : Nat) (h : (w r).returned = none) :
    (loop F ntasks alpha0 tol n k w r).returned = none
      ∨ ∃ j, k ≤ j ∧ (loop F ntasks alpha0 tol n k w r).returned = some j := by
  induction n generalizing k w with
  | zero => left; exact h
  | succ n ih =>
    simp only [loop]
    rcases loop_body_cases F ntasks alpha0 tol k w r with ⟨h1, _⟩ | ⟨_, _, e⟩ | ⟨_, _, e⟩
    · rw [h] at h1; exact absurd h1 (by simp)
    · right
      refine ⟨k, Nat.le_refl k, ?_⟩
      rw [loop_frozen F ntasks alpha0 tol n (k + 1) _ r (by rw [e]; rfl), e]
    · rcases ih (k + 1) (loop_body F ntasks alpha0 tol k w)
          (by rw [e, iteration_returned]; exact h) with h2 | ⟨j, hj, h2⟩
      · left; exact h2
      · right; exact ⟨j, by omega, h2⟩

theorem iter_main_didreset (F : Kernels α) (ntasks : Nat) (alpha0 : Vec α) (w : Nat → Rank α)
    (r : Nat) : (iter_main F ntasks alpha0 w r).didreset = false := rfl

theorem iter_revert_didreset (F : Kernels α) (ntasks : Nat) (alpha0 : Vec α)
    (w : Nat → Rank α) (r : Nat) : (iter_revert F ntasks alpha0 w r).didreset = true := rfl

/-- A rank whose bound regressed in iteration 0 does not return in iteration 0. -/
theorem not_returned_at_zero (F : Kernels α) (ntasks : Nat) (logl_full : Matrix α)
    (log_times_observed_full alpha0 : Vec α) (tol : α) (maxiters r : Nat)
    (hreg : (iter_main F ntasks alpha0
        (setup F ntasks logl_full log_times_observed_full alpha0) r).bound
      < (iter_main F ntasks alpha0
        (setup F ntasks logl_full log_times_observed_full alpha0) r).oldbound) :
    (rcg_optl_mpi F ntasks logl_full log_times_observed_full alpha0 tol maxiters r).returned
      ≠ some 0 := by
  unfold rcg_optl_mpi
  rw [after_loop_returned]
  cases maxiters with
  | zero => simp [loop, setup_returned]
  | succ n =>
    simp only [loop]
    have hit : iteration F ntasks alpha0
        (setup F ntasks logl_full log_times_observed_full alpha0) r
        = iter_revert F ntasks alpha0 (iter_main F ntasks alpha0
          (setup F ntasks logl_full log_times_observed_full alpha0)) r := by
      unfold iteration
      simp only []
      rw [if_pos hreg]
    have hconv : converged tol (iteration F ntasks alpha0
        (setup F ntasks logl_full log_times_observed_full alpha0) r) = false := by
      rw [hit]
      simp [converged, iter_revert_didreset]
    rcases loop_body_cases F ntasks alpha0 tol 0
        (setup F ntasks logl_full log_times_observed_full alpha0) r
      with ⟨h1, _⟩ | ⟨_, h2, _⟩ | ⟨_, _, e⟩
    · rw [setup_returned] at h1; exact absurd h1 (by simp)
    · rw [hconv] at h2; exact absurd h2 (by simp)
    · rcases loop_returned_ge F ntasks alpha0 tol n 1
          (loop_body F ntasks alpha0 tol 0
            (setup F ntasks logl_full log_times_observed_full alpha0)) r
          (by rw [e, iteration_returned, setup_returned]) with h3 | ⟨j, hj, h3⟩
      · rw [h3]; simp
      · rw [h3]
        intro h4
        have : j = 0 := by simpa using h4
        omega

/-- A rank whose bound did not regress in iteration 0 and whose bound difference is
below `tol` returns in iteration 0. -/
theorem returned_at_zero (F : Kernels α) (ntasks : Nat) (logl_full : Matrix α)
    (log_times_observed_full alpha0 : Vec α) (tol : α) (maxiters r : Nat)
    (hm : 1 ≤ maxiters)
    (hreg : ¬ (iter_main F ntasks alpha0
        (setup F ntasks logl_full log_times_observed_full alpha0) r).bound
      < (iter_main F ntasks alpha0
        (setup F ntasks logl_full log_times_observed_full alpha0) r).oldbound)
    (htol : (iter_main F ntasks alpha0
        (setup F ntasks logl_full log_times_observed_full alpha0) r).bound
      - (iter_main F ntasks alpha0
        (setup F ntasks logl_full log_times_observed_full alpha0) r).oldbound < tol) :
    (rcg_optl_mpi F ntasks logl_full log_times_observed_full alpha0 tol maxiters r).returned
      = some 0 := by
  unfold rcg_optl_mpi
  rw [after_loop_returned]
  obtain ⟨n, rfl⟩ : ∃ n, maxiters = n + 1 := ⟨maxiters - 1, by omega⟩
  simp only [loop]
  have hit : iteration F ntasks alpha0
      (setup F ntasks logl_full log_times_observed_full alpha0) r
      = { iter_main F ntasks alpha0
            (setup F ntasks logl_full log_times_observed_full alpha0) r with
          oldstep_partial := ( Rank.step_partial (iter_main F ntasks alpha0
            (setup F ntasks logl_full log_times_observed_full alpha0) r)) } := by
    unfold iteration
    simp only []
    rw [if_neg hreg]
  have hconv : converged tol (iteration F ntasks alpha0
      (setup F ntasks logl_full log_times_observed_full alpha0) r) = true := by
    rw [hit]
    simp [converged, iter_main_didreset, htol]
  rcases loop_body_cases F ntasks alpha0 tol 0
      (setup F ntasks logl_full log_times_observed_full alpha0) r
    with ⟨h1, _⟩ | ⟨_, _, e⟩ | ⟨_, h2, _⟩
  · rw [setup_returned] at h1; exact absurd h1 (by simp)
  · rw [loop_frozen F ntasks alpha0 tol n 1 _ r (by rw [e]; rfl), e]
  · rw [hconv] at h2; exact absurd h2 (by simp)

end Return


/-! ## Concrete inputs -/

section GammaValues

theorem deriv_Gamma_two : deriv Real.Gamma 2 = 1 - Real.eulerMascheroniConstant := by
  have h := Real.deriv_Gamma_nat 1
  have e : ((1 : ℕ) : ℝ) + 1 = 2 := by norm_num
  rw [e] at h
  rw [h]
  simp [harmonic_succ]
  ring

theorem Gamma_two_eq : Real.Gamma 2 = 1 := by
  have h := Real.Gamma_nat_eq_factorial 1
  have e : ((1 : ℕ) : ℝ) + 1 = 2 := by norm_num
  rw [e] at h
  rw [h]
  simp

theorem log_one_add_exp_lt : Real.log (1 + Real.exp (-2)) < Real.log 2 := by
  have h1 : Real.exp (-2) < 1 := by
    rw [Real.exp_lt_one_iff]; norm_num
  have h0 := Real.exp_pos (-2)
  exact Real.log_lt_log (by linarith) (by linarith)

theorem log_two_lt_one : Real.log 2 < 1 := by
  have := Real.log_two_lt_d9
  linarith

end GammaValues

/-! ### Input `c1`: `P = 2`, `logl_full = [[0, 0], [2, 2]]`, `maxiters = 1` -/

section ConcreteC1

theorem c1_mpi_Z (F : Kernels ℝ) (hexp : F.exp = Real.exp) (hlog : F.log = Real.log) (i : Nat) (hi : i < 2 * 2) :
    (gathered 2 (grad_step F
      (setup F 2 ⟨2, 2, fun i => if i < 2 then 0 else 2⟩ ⟨2, fun _ => 0⟩ ⟨2, fun _ => 1⟩))).mat i
      = (Matrix.fill 2 2 (-Real.log 2)).mat i := by
  have h2 : Real.exp (Real.log 2) = 2 := Real.exp_log (by norm_num)
  interval_cases i <;>
    simp [gathered, grad_step, MPI_Gather, MPI_Scatter, Matrix.get,
      setup, n_groups, n_obs, n_obs_per_task, n_values_per_task, Matrix.fill, Matrix.add,
      mixt_negnatgrad_step, negnatgrad_raw, negnatgrad_mean, add_alpha0_to_Nk,
      Matrix.exp_right_multiply, Finset.sum_range_succ, Real.exp_neg, h2, hexp, hlog] <;>
    ring

theorem c1_mpi (F : Kernels ℝ) (hexp : F.exp = Real.exp) (hlog : F.log = Real.log) (tol : ℝ) :
    (rcg_optl_mpi F 2 ⟨2, 2, fun i => if i < 2 then 0 else 2⟩ ⟨2, fun _ => 0⟩ ⟨2, fun _ => 1⟩
      tol 1 0).gamma_Z.mat 0 = - Real.log 2 := by
  rw [rcg_optl_mpi_one_pass F 2 _ _ _ tol (by decide) (by decide) (by decide)]
  have hsh := gathered_grad_shape F 2 _ _ _
    (setup_Shaped F 2 ⟨2, 2, fun i => if i < 2 then 0 else 2⟩ ⟨2, fun _ => 0⟩ ⟨2, fun _ => 1⟩
      (by decide) (by decide))
  rw [logsumexp_congr F (Matrix.fill 2 2 (-Real.log 2)) _ hsh.1 hsh.2
    (c1_mpi_Z F hexp hlog) (by decide)]
  simp [logsumexp, colshift, colmax, maxUpTo, Matrix.get, Matrix.fill, Finset.sum_range_succ,
    hexp, hlog]


theorem c1_ser (F : Kernels ℝ) (hexp : F.exp = Real.exp) (hlog : F.log = Real.log) (bc tol : ℝ) :
    (rcg_optl_mat F ⟨2, 2, fun i => if i < 2 then 0 else 2⟩ ⟨2, fun _ => 0⟩ ⟨2, fun _ => 1⟩
      bc tol 1).mat 0 = - 2 - Real.log (1 + Real.exp (-2)) := by
  have h2 : Real.exp (Real.log 2) = 2 := Real.exp_log (by norm_num)
  rw [rcg_optl_mat_one_pass F _ _ _ bc tol (by decide)]
  simp [logsumexp, colshift, colmax, maxUpTo, mat_grad_step, mat_init, Matrix.get,
    Matrix.fill, Matrix.add,
    mixt_negnatgrad_step, negnatgrad_raw, negnatgrad_mean, add_alpha0_to_Nk, Matrix.exp_right_multiply,
    Finset.sum_range_succ, Real.exp_neg, h2, hexp, hlog]
  rw [add_comm (Real.exp 2)⁻¹ 1]
  ring
end ConcreteC1

/-! ### Input `k1`: `P = 1`, one group, one observation with `logl = x` -/

section ConcreteSingle

theorem k1_slab (F : Kernels ℝ) (hexp : F.exp = Real.exp) (hlog : F.log = Real.log) (x : ℝ) :
    ( Rank.gamma_Z_partial (iter_main F 1 ⟨1, fun _ => 1⟩
      (setup F 1 ⟨1, 1, fun _ => x⟩ ⟨1, fun _ => 0⟩ ⟨1, fun _ => 1⟩) 0)).mat 0 = 0 := by
  have hw : Shaped 1 1 1 (setup F 1 ⟨1, 1, fun _ => x⟩ ⟨1, fun _ => 0⟩ ⟨1, fun _ => 1⟩) :=
    setup_Shaped F 1 ⟨1, 1, fun _ => x⟩ ⟨1, fun _ => 0⟩ ⟨1, fun _ => 1⟩ (by decide) (by decide)
  have h := iter_main_first F 1 1 1 ⟨1, fun _ => 1⟩ _ hw (fun _ _ => rfl) (r := 0) (l := 0)
    (by decide) (by decide)
  rw [h]
  simp [logsumexp, colshift, colmax, maxUpTo, gathered, grad_step, MPI_Gather, MPI_Scatter,
    Matrix.get, setup, n_groups, n_obs, n_obs_per_task, n_values_per_task, Matrix.fill,
    Matrix.add, mixt_negnatgrad_step, negnatgrad_raw, negnatgrad_mean, add_alpha0_to_Nk,
    Matrix.exp_right_multiply, hexp, hlog]

theorem k1_bound (F : Kernels ℝ) (hexp : F.exp = Real.exp) (hlog : F.log = Real.log) (x : ℝ) :
    (iter_main F 1 ⟨1, fun _ => 1⟩
      (setup F 1 ⟨1, 1, fun _ => x⟩ ⟨1, fun _ => 0⟩ ⟨1, fun _ => 1⟩) 0).bound
      = x - F.digamma 2 + F.lgamma 2
        + (setup F 1 ⟨1, 1, fun _ => x⟩ ⟨1, fun _ => 0⟩ ⟨1, fun _ => 1⟩ 0).bound_const
      ∧ (iter_main F 1 ⟨1, fun _ => 1⟩
      (setup F 1 ⟨1, 1, fun _ => x⟩ ⟨1, fun _ => 0⟩ ⟨1, fun _ => 1⟩) 0).oldbound = -100000 := by
  have hs := k1_slab F hexp hlog x
  have hsh := iter_main_shape F 1 ⟨1, fun _ => 1⟩
    (setup F 1 ⟨1, 1, fun _ => x⟩ ⟨1, fun _ => 0⟩ ⟨1, fun _ => 1⟩) 0
  have hr : ( Rank.gamma_Z_partial (iter_main F 1 ⟨1, fun _ => 1⟩
      (setup F 1 ⟨1, 1, fun _ => x⟩ ⟨1, fun _ => 0⟩ ⟨1, fun _ => 1⟩) 0)).rows = 1 := hsh.1
  have hc : ( Rank.gamma_Z_partial (iter_main F 1 ⟨1, fun _ => 1⟩
      (setup F 1 ⟨1, 1, fun _ => x⟩ ⟨1, fun _ => 0⟩ ⟨1, fun _ => 1⟩) 0)).cols = 1 := hsh.2
  refine ⟨?_, rfl⟩
  have e : (iter_main F 1 ⟨1, fun _ => 1⟩
      (setup F 1 ⟨1, 1, fun _ => x⟩ ⟨1, fun _ => 0⟩ ⟨1, fun _ => 1⟩) 0).bound
      = MPI_Allreduce (fun q => ELBO_rcg_mat F
          (setup F 1 ⟨1, 1, fun _ => x⟩ ⟨1, fun _ => 0⟩ ⟨1, fun _ => 1⟩ q).logl
          ( Rank.gamma_Z_partial (iter_main F 1 ⟨1, fun _ => 1⟩
            (setup F 1 ⟨1, 1, fun _ => x⟩ ⟨1, fun _ => 0⟩ ⟨1, fun _ => 1⟩) q))
          (setup F 1 ⟨1, 1, fun _ => x⟩ ⟨1, fun _ => 0⟩ ⟨1, fun _ => 1⟩ q).log_times_observed
          ⟨1, fun _ => 1⟩
          (add_alpha0_to_Nk ⟨1, fun _ => 1⟩
            (( Rank.gamma_Z_partial (iter_main F 1 ⟨1, fun _ => 1⟩
              (setup F 1 ⟨1, 1, fun _ => x⟩ ⟨1, fun _ => 0⟩ ⟨1, fun _ => 1⟩) q)).exp_right_multiply F
              (setup F 1 ⟨1, 1, fun _ => x⟩ ⟨1, fun _ => 0⟩ ⟨1, fun _ => 1⟩ q).log_times_observed
              (setup F 1 ⟨1, 1, fun _ => x⟩ ⟨1, fun _ => 0⟩ ⟨1, fun _ => 1⟩ q).N_k)) 0) 1
        + (setup F 1 ⟨1, 1, fun _ => x⟩ ⟨1, fun _ => 0⟩ ⟨1, fun _ => 1⟩ 0).bound_const := rfl
  rw [e]
  simp only [MPI_Allreduce, ELBO_rcg_mat, add_alpha0_to_Nk, Matrix.exp_right_multiply,
    Finset.sum_range_one, hr, hc, Matrix.get, hs, hexp]
  simp [setup, MPI_Scatter, n_obs, n_obs_per_task, n_groups, n_values_per_task]
  norm_num
  ring
end ConcreteSingle

/-! ### Input `e1`: `P = 1`, `logl_full = [[-100000, -100002], [-100002, -100000]]` -/

section ConcreteRegression

theorem e1_Z (F : Kernels ℝ) (hexp : F.exp = Real.exp) (hlog : F.log = Real.log) (i : Nat)
    (hi : i < 2 * 2) :
    (gathered 1 (grad_step F
      (setup F 1 ⟨2, 2, fun i => if i = 0 ∨ i = 3 then -100000 else -100002⟩ ⟨2, fun _ => 0⟩
        ⟨2, fun _ => 1⟩))).mat i
      = (⟨2, 2, fun i => -Real.log 2 + (if i = 0 ∨ i = 3 then 1 else -1)⟩ : Matrix ℝ).mat i := by
  have h2 : Real.exp (Real.log 2) = 2 := Real.exp_log (by norm_num)
  interval_cases i <;>
    simp [gathered, grad_step, MPI_Gather, MPI_Scatter, Matrix.get,
      setup, n_groups, n_obs, n_obs_per_task, n_values_per_task, Matrix.fill, Matrix.add,
      mixt_negnatgrad_step, negnatgrad_raw, negnatgrad_mean, add_alpha0_to_Nk,
      Matrix.exp_right_multiply, Finset.sum_range_succ, Real.exp_neg, h2, hexp, hlog] <;>
    ring

theorem e1_norm (F : Kernels ℝ) (hexp : F.exp = Real.exp) (hlog : F.log = Real.log) (l : Nat)
    (hl : l < 2 * 2) :
    (logsumexp F (⟨2, 2, fun i => -Real.log 2 + (if i = 0 ∨ i = 3 then 1 else -1)⟩ :
      Matrix ℝ)).mat l
      = (if l = 0 ∨ l = 3 then 0 else -2) - Real.log (1 + Real.exp (-2)) := by
  have e : (-1 : ℝ) - 1 = -2 := by norm_num
  interval_cases l <;>
    simp [logsumexp, colshift, colmax, maxUpTo, Matrix.get, Finset.sum_range_succ, hexp, hlog, e]
  all_goals ring_nf

theorem e1_Shaped (F : Kernels ℝ) :
    Shaped 1 2 2 (setup F 1 ⟨2, 2, fun i => if i = 0 ∨ i = 3 then -100000 else -100002⟩
      ⟨2, fun _ => 0⟩ ⟨2, fun _ => 1⟩) :=
  setup_Shaped F 1 _ _ _ (by decide) (by decide)

theorem e1_logsumexp (F : Kernels ℝ) (hexp : F.exp = Real.exp) (hlog : F.log = Real.log)
    (l : Nat) (hl : l < 2 * 2) :
    (logsumexp F (gathered 1 (grad_step F
      (setup F 1 ⟨2, 2, fun i => if i = 0 ∨ i = 3 then -100000 else -100002⟩ ⟨2, fun _ => 0⟩
        ⟨2, fun _ => 1⟩)))).mat l
      = (if l = 0 ∨ l = 3 then 0 else -2) - Real.log (1 + Real.exp (-2)) := by
  have hsh := gathered_grad_shape F 1 2 2 _ (e1_Shaped F)
  rw [logsumexp_congr F
    (⟨2, 2, fun i => -Real.log 2 + (if i = 0 ∨ i = 3 then 1 else -1)⟩ : Matrix ℝ) _
    hsh.1 hsh.2 (e1_Z F hexp hlog) hl]
  exact e1_norm F hexp hlog l hl

theorem e1_slab (F : Kernels ℝ) (hexp : F.exp = Real.exp) (hlog : F.log = Real.log) (l : Nat)
    (hl : l < 2 * 2) :
    ( Rank.gamma_Z_partial (iter_main F 1 ⟨2, fun _ => 1⟩
      (setup F 1 ⟨2, 2, fun i => if i = 0 ∨ i = 3 then -100000 else -100002⟩ ⟨2, fun _ => 0⟩
        ⟨2, fun _ => 1⟩) 0)).mat l
      = (if l = 0 ∨ l = 3 then 0 else -2) - Real.log (1 + Real.exp (-2)) := by
  have h := iter_main_first F 1 2 2 ⟨2, fun _ => 1⟩ _ (e1_Shaped F) (fun _ _ => rfl) (r := 0)
    (l := l) (by decide) hl
  rw [h, Nat.zero_mul, Nat.zero_add]
  exact e1_logsumexp F hexp hlog l hl

theorem exp_pair : Real.exp (-Real.log (1 + Real.exp (-2)))
    + Real.exp (-2 - Real.log (1 + Real.exp (-2))) = 1 := by
  have hp : 0 < 1 + Real.exp (-2) := by have := Real.exp_pos (-2); linarith
  rw [Real.exp_sub, Real.exp_neg, Real.exp_log hp]
  field_simp

theorem e1_bound (F : Kernels ℝ) (hexp : F.exp = Real.exp) (hlog : F.log = Real.log) :
    (iter_main F 1 ⟨2, fun _ => 1⟩
      (setup F 1 ⟨2, 2, fun i => if i = 0 ∨ i = 3 then -100000 else -100002⟩ ⟨2, fun _ => 0⟩
        ⟨2, fun _ => 1⟩) 0).bound
      = 2 * (Real.log (1 + Real.exp (-2)) - 100000) - 2 * F.digamma 2 + 2 * F.lgamma 2
        + (setup F 1 ⟨2, 2, fun i => if i = 0 ∨ i = 3 then -100000 else -100002⟩
            ⟨2, fun _ => 0⟩ ⟨2, fun _ => 1⟩ 0).bound_const
      ∧ (iter_main F 1 ⟨2, fun _ => 1⟩
      (setup F 1 ⟨2, 2, fun i => if i = 0 ∨ i = 3 then -100000 else -100002⟩ ⟨2, fun _ => 0⟩
        ⟨2, fun _ => 1⟩) 0).oldbound = -100000 := by
  have hs := e1_slab F hexp hlog
  have hs0 := hs 0 (by decide)
  have hs1 := hs 1 (by decide)
  have hs2 := hs 2 (by decide)
  have hs3 := hs 3 (by decide)
  simp only [show (0 : ℕ) = 0 ∨ (0 : ℕ) = 3 from Or.inl rfl, if_true] at hs0
  simp only [show ¬ ((1 : ℕ) = 0 ∨ (1 : ℕ) = 3) by decide, if_false] at hs1
  simp only [show ¬ ((2 : ℕ) = 0 ∨ (2 : ℕ) = 3) by decide, if_false] at hs2
  simp only [show (3 : ℕ) = 0 ∨ (3 : ℕ) = 3 from Or.inr rfl, if_true] at hs3
  have hsh := iter_main_shape F 1 ⟨2, fun _ => 1⟩
    (setup F 1 ⟨2, 2, fun i => if i = 0 ∨ i = 3 then -100000 else -100002⟩ ⟨2, fun _ => 0⟩
        ⟨2, fun _ => 1⟩) 0
  have hr : ( Rank.gamma_Z_partial (iter_main F 1 ⟨2, fun _ => 1⟩
      (setup F 1 ⟨2, 2, fun i => if i = 0 ∨ i = 3 then -100000 else -100002⟩ ⟨2, fun _ => 0⟩
        ⟨2, fun _ => 1⟩) 0)).rows = 2 := hsh.1
  have hc : ( Rank.gamma_Z_partial (iter_main F 1 ⟨2, fun _ => 1⟩
      (setup F 1 ⟨2, 2, fun i => if i = 0 ∨ i = 3 then -100000 else -100002⟩ ⟨2, fun _ => 0⟩
        ⟨2, fun _ => 1⟩) 0)).cols = 2 := hsh.2
  refine ⟨?_, rfl⟩
  have e : (iter_main F 1 ⟨2, fun _ => 1⟩
      (setup F 1 ⟨2, 2, fun i => if i = 0 ∨ i = 3 then -100000 else -100002⟩ ⟨2, fun _ => 0⟩
        ⟨2, fun _ => 1⟩) 0).bound
      = MPI_Allreduce (fun q => ELBO_rcg_mat F
          (setup F 1 ⟨2, 2, fun i => if i = 0 ∨ i = 3 then -100000 else -100002⟩ ⟨2, fun _ => 0⟩
            ⟨2, fun _ => 1⟩ q).logl
          ( Rank.gamma_Z_partial (iter_main F 1 ⟨2, fun _ => 1⟩
            (setup F 1 ⟨2, 2, fun i => if i = 0 ∨ i = 3 then -100000 else -100002⟩
              ⟨2, fun _ => 0⟩ ⟨2, fun _ => 1⟩) q))
          (setup F 1 ⟨2, 2, fun i => if i = 0 ∨ i = 3 then -100000 else -100002⟩ ⟨2, fun _ => 0⟩
            ⟨2, fun _ => 1⟩ q).log_times_observed
          ⟨2, fun _ => 1⟩
          (add_alpha0_to_Nk ⟨2, fun _ => 1⟩
            (( Rank.gamma_Z_partial (iter_main F 1 ⟨2, fun _ => 1⟩
              (setup F 1 ⟨2, 2, fun i => if i = 0 ∨ i = 3 then -100000 else -100002⟩
                ⟨2, fun _ => 0⟩ ⟨2, fun _ => 1⟩) q)).exp_right_multiply F
              (setup F 1 ⟨2, 2, fun i => if i = 0 ∨ i = 3 then -100000 else -100002⟩
                ⟨2, fun _ => 0⟩ ⟨2, fun _ => 1⟩ q).log_times_observed
              (setup F 1 ⟨2, 2, fun i => if i = 0 ∨ i = 3 then -100000 else -100002⟩
                ⟨2, fun _ => 0⟩ ⟨2, fun _ => 1⟩ q).N_k)) 0) 1
        + (setup F 1 ⟨2, 2, fun i => if i = 0 ∨ i = 3 then -100000 else -100002⟩
            ⟨2, fun _ => 0⟩ ⟨2, fun _ => 1⟩ 0).bound_const := rfl
  rw [e]
  have hpq := exp_pair
  simp only [MPI_Allreduce, ELBO_rcg_mat, add_alpha0_to_Nk, Matrix.exp_right_multiply,
    Finset.sum_range_succ, Finset.sum_range_zero, hr, hc, Matrix.get, hexp, Nat.zero_mul,
    Nat.one_mul, Nat.zero_add, Nat.add_zero, hs0, hs1, hs2, hs3, Nat.reduceAdd, Nat.reduceMul]
  simp [setup, MPI_Scatter, n_obs, n_obs_per_task, n_groups, n_values_per_task]
  generalize Real.exp (-Real.log (1 + Real.exp (-2))) = p at hpq ⊢
  generalize Real.exp (-2 - Real.log (1 + Real.exp (-2))) = q at hpq ⊢
  have hN1 : p + q + 1 = 2 := by linarith
  have hN2 : q + p + 1 = 2 := by linarith
  have hq : q = 1 - p := by linarith
  rw [hN1, hN2, hq]
  ring
end ConcreteRegression

/-! ### The inputs `k1` and `e1` with the Gamma function of Mathlib -/

section TrueKernels

theorem k1_true_bound (x : ℝ) :
    (iter_main (kernelsOf Real.exp Real.log Real.Gamma (deriv Real.Gamma)) 1 ⟨1, fun _ => 1⟩
      (setup (kernelsOf Real.exp Real.log Real.Gamma (deriv Real.Gamma)) 1 ⟨1, 1, fun _ => x⟩
        ⟨1, fun _ => 0⟩ ⟨1, fun _ => 1⟩) 0).bound
      = x - (1 - Real.eulerMascheroniConstant)
      ∧ (iter_main (kernelsOf Real.exp Real.log Real.Gamma (deriv Real.Gamma)) 1
        ⟨1, fun _ => 1⟩
        (setup (kernelsOf Real.exp Real.log Real.Gamma (deriv Real.Gamma)) 1 ⟨1, 1, fun _ => x⟩
          ⟨1, fun _ => 0⟩ ⟨1, fun _ => 1⟩) 0).oldbound = -100000 := by
  obtain ⟨h1, h2⟩ := k1_bound (kernelsOf Real.exp Real.log Real.Gamma (deriv Real.Gamma))
    rfl rfl x
  refine ⟨?_, h2⟩
  rw [h1]
  simp [kernelsOf, setup, deriv_Gamma_two, Gamma_two_eq, Real.Gamma_one]

theorem e1_true_bound :
    (iter_main (kernelsOf Real.exp Real.log Real.Gamma (deriv Real.Gamma)) 1 ⟨2, fun _ => 1⟩
      (setup (kernelsOf Real.exp Real.log Real.Gamma (deriv Real.Gamma)) 1
        ⟨2, 2, fun i => if i = 0 ∨ i = 3 then -100000 else -100002⟩ ⟨2, fun _ => 0⟩
        ⟨2, fun _ => 1⟩) 0).bound
      = 2 * (Real.log (1 + Real.exp (-2)) - 100000) - 2 * (1 - Real.eulerMascheroniConstant)
      ∧ (iter_main (kernelsOf Real.exp Real.log Real.Gamma (deriv Real.Gamma)) 1
        ⟨2, fun _ => 1⟩
        (setup (kernelsOf Real.exp Real.log Real.Gamma (deriv Real.Gamma)) 1
          ⟨2, 2, fun i => if i = 0 ∨ i = 3 then -100000 else -100002⟩ ⟨2, fun _ => 0⟩
          ⟨2, fun _ => 1⟩) 0).oldbound = -100000 := by
  obtain ⟨h1, h2⟩ := e1_bound (kernelsOf Real.exp Real.log Real.Gamma (deriv Real.Gamma))
    rfl rfl
  refine ⟨?_, h2⟩
  rw [h1]
  have e : (1 : ℝ) + 1 = 2 := by norm_num
  simp [kernelsOf, setup, deriv_Gamma_two, Gamma_two_eq, Real.Gamma_one, Finset.sum_range_succ,
    e]

theorem e1_true_regressed :
    (iter_main (kernelsOf Real.exp Real.log Real.Gamma (deriv Real.Gamma)) 1 ⟨2, fun _ => 1⟩
      (setup (kernelsOf Real.exp Real.log Real.Gamma (deriv Real.Gamma)) 1
        ⟨2, 2, fun i => if i = 0 ∨ i = 3 then -100000 else -100002⟩ ⟨2, fun _ => 0⟩
        ⟨2, fun _ => 1⟩) 0).bound
      < (iter_main (kernelsOf Real.exp Real.log Real.Gamma (deriv Real.Gamma)) 1
        ⟨2, fun _ => 1⟩
        (setup (kernelsOf Real.exp Real.log Real.Gamma (deriv Real.Gamma)) 1
          ⟨2, 2, fun i => if i = 0 ∨ i = 3 then -100000 else -100002⟩ ⟨2, fun _ => 0⟩
          ⟨2, fun _ => 1⟩) 0).oldbound := by
  obtain ⟨h1, h2⟩ := e1_true_bound
  rw [h1, h2]
  have hu := log_one_add_exp_lt
  have h2' := log_two_lt_one
  have hg := Real.eulerMascheroniConstant_lt_two_thirds
  linarith

end TrueKernels

/-! ## The claims -/

section Claims

/-- C1 (checked at a failing input): with `K = 2`, `N = 2`, `P = 2`,
`logl_full = [[0, 0], [2, 2]]`, `log_times_observed_full = [0, 0]`, `alpha0 = [1, 1]`,
`maxiters = 1` and any `tol` and `bound_const`, rank 0 of `rcg_optl_mpi` returns
`gamma_Z(0, 0) = -ln 2` and the serial optimizer `rcg_optl_mat` returns
`-2 - ln(1 + exp(-2))`: the two differ by more than `1e-4`. -/
theorem C1_mpi_differs_from_serial (ψ lg : ℝ → ℝ) (cbc : Vec ℝ → Vec ℝ → ℝ)
    (bound_const tol : ℝ) :
    (rcg_optl_mpi (Kernels.mk Real.exp Real.log ψ lg cbc) 2
        ⟨2, 2, fun i => if i < 2 then 0 else 2⟩ ⟨2, fun _ => 0⟩ ⟨2, fun _ => 1⟩
        tol 1 0).gamma_Z.get 0 0 = -Real.log 2
      ∧ (rcg_optl_mat (Kernels.mk Real.exp Real.log ψ lg cbc)
        ⟨2, 2, fun i => if i < 2 then 0 else 2⟩ ⟨2, fun _ => 0⟩ ⟨2, fun _ => 1⟩
        bound_const tol 1).get 0 0 = -2 - Real.log (1 + Real.exp (-2))
      ∧ (1 : ℝ) / 10000
        < |(rcg_optl_mpi (Kernels.mk Real.exp Real.log ψ lg cbc) 2
            ⟨2, 2, fun i => if i < 2 then 0 else 2⟩ ⟨2, fun _ => 0⟩ ⟨2, fun _ => 1⟩
            tol 1 0).gamma_Z.get 0 0
          - (rcg_optl_mat (Kernels.mk Real.exp Real.log ψ lg cbc)
            ⟨2, 2, fun i => if i < 2 then 0 else 2⟩ ⟨2, fun _ => 0⟩ ⟨2, fun _ => 1⟩
            bound_const tol 1).get 0 0| := by
  have h1 : (rcg_optl_mpi (Kernels.mk Real.exp Real.log ψ lg cbc) 2
        ⟨2, 2, fun i => if i < 2 then 0 else 2⟩ ⟨2, fun _ => 0⟩ ⟨2, fun _ => 1⟩
        tol 1 0).gamma_Z.get 0 0 = -Real.log 2 := by
    simp only [Matrix.get, Nat.zero_mul, Nat.add_zero]
    exact c1_mpi _ rfl rfl tol
  have h2 : (rcg_optl_mat (Kernels.mk Real.exp Real.log ψ lg cbc)
        ⟨2, 2, fun i => if i < 2 then 0 else 2⟩ ⟨2, fun _ => 0⟩ ⟨2, fun _ => 1⟩
        bound_const tol 1).get 0 0 = -2 - Real.log (1 + Real.exp (-2)) := by
    simp only [Matrix.get, Nat.zero_mul, Nat.add_zero]
    exact c1_ser _ rfl rfl bound_const tol
  refine ⟨h1, h2, ?_⟩
  rw [h1, h2]
  have hl := log_two_lt_one
  have hp : 0 < Real.log (1 + Real.exp (-2)) :=
    Real.log_pos (by have := Real.exp_pos (-2); linarith)
  rw [abs_of_pos (by linarith)]
  linarith

/-- C2 (checked at a failing input): with `K = 2` groups, `N = 2` observations and
`P = 2` ranks, `W = 1`, and `logl_full = [[1, 2], [3, 4]]`, the scatter of line 36 hands
rank 0 the first two values of the row-major buffer, which are row 0 of `logl_full`:
the local `logl(1, 0)` is `logl_full(0, 1) = 2`, not `logl_full(1, 0*W + 0) = 3` as a
column slab would give. -/
theorem C2_scatter_hands_out_row_blocks (F : Kernels ℚ) :
    (setup F 2 ⟨2, 2, fun i => (i : ℚ) + 1⟩ ⟨2, fun _ => 0⟩ ⟨2, fun _ => 1⟩ 0).logl.get 1 0 = 2
      ∧ (⟨2, 2, fun i => (i : ℚ) + 1⟩ : Matrix ℚ).get 0 1 = 2
      ∧ (⟨2, 2, fun i => (i : ℚ) + 1⟩ : Matrix ℚ).get 1 (0 * 1 + 0) = 3 := by
  simp [setup, n_obs, n_groups, n_obs_per_task, n_values_per_task, Matrix.get, MPI_Scatter]
  norm_num

/-- C3: on rank 0, when the broadcast group count `K = n_groups` is at least 1, the
matrix `gamma_Z` returned by `rcg_optl_mpi` (from inside the loop or after it, whatever
the last iteration did) has `K` rows and `N = n_obs` columns, and every column `n`
satisfies `Σ_k exp(gamma_Z[k,n]) = 1`, that is `ln Σ_k exp(gamma_Z[k,n]) = 0`. -/
theorem C3_returned_columns_normalized (ψ lg : ℝ → ℝ) (cbc : Vec ℝ → Vec ℝ → ℝ)
    (ntasks : Nat) (logl_full : Matrix ℝ) (log_times_observed_full alpha0 : Vec ℝ) (tol : ℝ)
    (maxiters : Nat) (hK : 1 ≤ n_groups logl_full.rows) (n : Nat)
    (hn : n < n_obs log_times_observed_full.size) :
    (rcg_optl_mpi (Kernels.mk Real.exp Real.log ψ lg cbc) ntasks logl_full
        log_times_observed_full alpha0 tol maxiters 0).gamma_Z.rows = n_groups logl_full.rows
      ∧ (rcg_optl_mpi (Kernels.mk Real.exp Real.log ψ lg cbc) ntasks logl_full
        log_times_observed_full alpha0 tol maxiters 0).gamma_Z.cols
          = n_obs log_times_observed_full.size
      ∧ ∑ k ∈ range (n_groups logl_full.rows),
          Real.exp ((rcg_optl_mpi (Kernels.mk Real.exp Real.log ψ lg cbc) ntasks logl_full
            log_times_observed_full alpha0 tol maxiters 0).gamma_Z.get k n) = 1
      ∧ Real.log (∑ k ∈ range (n_groups logl_full.rows),
          Real.exp ((rcg_optl_mpi (Kernels.mk Real.exp Real.log ψ lg cbc) ntasks logl_full
            log_times_observed_full alpha0 tol maxiters 0).gamma_Z.get k n)) = 0 := by
  have hs := rcg_optl_mpi_gamma_Z_shape (Kernels.mk Real.exp Real.log ψ lg cbc) ntasks
    logl_full log_times_observed_full alpha0 tol maxiters
  have hN := rcg_optl_mpi_normalized (Kernels.mk Real.exp Real.log ψ lg cbc) rfl rfl ntasks
    logl_full log_times_observed_full alpha0 tol maxiters hK n (by rw [hs.2]; exact hn)
  rw [hs.1] at hN
  exact ⟨hs.1, hs.2, hN, by rw [hN, Real.log_one]⟩

/-- C3, at a concrete input: two groups, two observations, two ranks, three iterations. -/
theorem C3_returned_columns_normalized_witness :
    (1 ≤ n_groups 2 ∧ 1 < n_obs 2)
      ∧ ((rcg_optl_mpi (Kernels.mk Real.exp Real.log (fun x => x) (fun x => x) (fun _ _ => 0)) 2
          ⟨2, 2, fun i => (i : ℝ)⟩ ⟨2, fun _ => 0⟩ ⟨2, fun _ => 1⟩ 1 3 0).gamma_Z.rows = n_groups 2
        ∧ (rcg_optl_mpi (Kernels.mk Real.exp Real.log (fun x => x) (fun x => x) (fun _ _ => 0)) 2
          ⟨2, 2, fun i => (i : ℝ)⟩ ⟨2, fun _ => 0⟩ ⟨2, fun _ => 1⟩ 1 3 0).gamma_Z.cols = n_obs 2
        ∧ ∑ k ∈ range (n_groups 2),
            Real.exp ((rcg_optl_mpi
              (Kernels.mk Real.exp Real.log (fun x => x) (fun x => x) (fun _ _ => 0)) 2
              ⟨2, 2, fun i => (i : ℝ)⟩ ⟨2, fun _ => 0⟩ ⟨2, fun _ => 1⟩ 1 3 0).gamma_Z.get k 1) = 1
        ∧ Real.log (∑ k ∈ range (n_groups 2),
            Real.exp ((rcg_optl_mpi
              (Kernels.mk Real.exp Real.log (fun x => x) (fun x => x) (fun _ _ => 0)) 2
              ⟨2, 2, fun i => (i : ℝ)⟩ ⟨2, fun _ => 0⟩ ⟨2, fun _ => 1⟩ 1 3 0).gamma_Z.get k 1))
            = 0) :=
  ⟨⟨by decide, by decide⟩,
    C3_returned_columns_normalized (fun x => x) (fun x => x) (fun _ _ => 0) 2
      ⟨2, 2, fun i => (i : ℝ)⟩ ⟨2, fun _ => 0⟩ ⟨2, fun _ => 1⟩ 1 3 (by decide) 1 (by decide)⟩

/-- C4: in the lock-step run, after any number `i` of passes through the loop, any two
ranks `r` and `q` hold the same `newnorm`, `beta_FR`, `oldbound`, `bound` and `didreset`
at the test `bound < oldbound` of the next pass, take the same branch there, hold the
same values again at the end of that pass, and return at the same iteration. -/
theorem C4_ranks_agree {α : Type} [LinearOrderedField α] (F : Kernels α) (ntasks : Nat)
    (logl_full : Matrix α) (log_times_observed_full alpha0 : Vec α) (tol : α)
    (maxiters i r q : Nat) :
    (scalars (iter_main F ntasks alpha0
        (loop F ntasks alpha0 tol i 0
          (setup F ntasks logl_full log_times_observed_full alpha0)) r)
      = scalars (iter_main F ntasks alpha0
        (loop F ntasks alpha0 tol i 0
          (setup F ntasks logl_full log_times_observed_full alpha0)) q))
    ∧ (((iter_main F ntasks alpha0 (loop F ntasks alpha0 tol i 0
            (setup F ntasks logl_full log_times_observed_full alpha0)) r).bound
          < (iter_main F ntasks alpha0 (loop F ntasks alpha0 tol i 0
            (setup F ntasks logl_full log_times_observed_full alpha0)) r).oldbound)
        ↔ ((iter_main F ntasks alpha0 (loop F ntasks alpha0 tol i 0
            (setup F ntasks logl_full log_times_observed_full alpha0)) q).bound
          < (iter_main F ntasks alpha0 (loop F ntasks alpha0 tol i 0
            (setup F ntasks logl_full log_times_observed_full alpha0)) q).oldbound))
    ∧ (scalars (loop F ntasks alpha0 tol (i + 1) 0
          (setup F ntasks logl_full log_times_observed_full alpha0) r)
        = scalars (loop F ntasks alpha0 tol (i + 1) 0
          (setup F ntasks logl_full log_times_observed_full alpha0) q))
    ∧ (rcg_optl_mpi F ntasks logl_full log_times_observed_full alpha0 tol maxiters r).returned
        = (rcg_optl_mpi F ntasks logl_full log_times_observed_full alpha0 tol maxiters
            q).returned := by
  have h0 := scalars_setup F ntasks logl_full log_times_observed_full alpha0
  have hi := scalars_loop F ntasks alpha0 tol i 0 _ h0
  have hm := scalars_iter_main F ntasks alpha0 _ r q (hi r q)
  refine ⟨hm, ?_, scalars_loop F ntasks alpha0 tol (i + 1) 0 _ h0 r q, ?_⟩
  · simp only [scalars, Prod.mk.injEq] at hm
    obtain ⟨-, -, -, h4, h5, -, -, -⟩ := hm
    rw [h4, h5]
  · have hf := scalars_after_loop F ntasks _ r q
      (scalars_loop F ntasks alpha0 tol maxiters 0 _ h0 r q)
    simp only [scalars, Prod.mk.injEq] at hf
    exact hf.2.2.2.2.2.2.2

/-- C5 (checked at a failing input): with `K = 1`, `N = 2`, `P = 2`,
`log_times_observed_full = [0, ln 2]` and `alpha0 = [1]`, after setup rank 0 holds
`N_k[0] = 2` and rank 1 holds `N_k[0] = 3`, while the global expected count
`Σ_n exp(gamma[0,n] + log_times_observed_full[n]) + alpha0[0]` is 4: `N_k` is the
count of the local slab only, and the ranks hold different vectors. -/
theorem C5_N_k_is_local (ψ lg : ℝ → ℝ) (cbc : Vec ℝ → Vec ℝ → ℝ) :
    (setup (Kernels.mk Real.exp Real.log ψ lg cbc) 2 (Matrix.fill 1 2 0)
        ⟨2, fun n => if n = 0 then 0 else Real.log 2⟩ ⟨1, fun _ => 1⟩ 0).N_k.dat 0 = 2
      ∧ (setup (Kernels.mk Real.exp Real.log ψ lg cbc) 2 (Matrix.fill 1 2 0)
        ⟨2, fun n => if n = 0 then 0 else Real.log 2⟩ ⟨1, fun _ => 1⟩ 1).N_k.dat 0 = 3
      ∧ (∑ n ∈ range 2,
          Real.exp ((setup (Kernels.mk Real.exp Real.log ψ lg cbc) 2 (Matrix.fill 1 2 0)
            ⟨2, fun n => if n = 0 then 0 else Real.log 2⟩ ⟨1, fun _ => 1⟩ 0).gamma_Z.get 0 n
              + (if n = 0 then 0 else Real.log 2))) + 1 = 4 := by
  have h2 : Real.exp (Real.log 2) = 2 := Real.exp_log (by norm_num)
  refine ⟨?_, ?_, ?_⟩
  · simp [setup, n_groups, n_obs, n_obs_per_task, n_values_per_task, Matrix.fill,
      add_alpha0_to_Nk, Matrix.exp_right_multiply, Matrix.get, MPI_Scatter]
    norm_num
  · simp [setup, n_groups, n_obs, n_obs_per_task, n_values_per_task, Matrix.fill,
      add_alpha0_to_Nk, Matrix.exp_right_multiply, Matrix.get, MPI_Scatter, h2]
    norm_num
  · simp [setup, n_groups, n_obs, n_obs_per_task, n_values_per_task, Matrix.fill,
      Matrix.get, Finset.sum_range_succ, h2]
    norm_num

/-- C6 (checked at a failing input): with `N = 65536` observations, `K = 1` group and
`P = 1` rank, `N/P = 65536` is the length of the local `log_times_observed`, but
`n_obs_per_task`, a `uint16_t`, is 0: `logl`, `gamma_Z_partial`, `step_partial` and
`oldstep_partial` get 0 columns and `n_values_per_task` is 0, not `K*(N/P) = 65536`. -/
theorem C6_slab_width_truncated {α : Type} [LinearOrderedField α] (F : Kernels α) :
    (setup F 1 (Matrix.fill 1 65536 0) ⟨65536, fun _ => 0⟩ ⟨1, fun _ => 1⟩ 0).n_obs / 1 = 65536
      ∧ (setup F 1 (Matrix.fill 1 65536 0) ⟨65536, fun _ => 0⟩ ⟨1, fun _ => 1⟩
          0).log_times_observed.size = 65536
      ∧ (setup F 1 (Matrix.fill 1 65536 0) ⟨65536, fun _ => 0⟩ ⟨1, fun _ => 1⟩
          0).n_obs_per_task = 0
      ∧ (setup F 1 (Matrix.fill 1 65536 0) ⟨65536, fun _ => 0⟩ ⟨1, fun _ => 1⟩ 0).logl.cols = 0
      ∧ ( Rank.gamma_Z_partial (setup F 1 (Matrix.fill 1 65536 0) ⟨65536, fun _ => 0⟩ ⟨1, fun _ => 1⟩
          0)).cols = 0
      ∧ ( Rank.step_partial (setup F 1 (Matrix.fill 1 65536 0) ⟨65536, fun _ => 0⟩ ⟨1, fun _ => 1⟩
          0)).cols = 0
      ∧ ( Rank.oldstep_partial (setup F 1 (Matrix.fill 1 65536 0) ⟨65536, fun _ => 0⟩ ⟨1, fun _ => 1⟩
          0)).cols = 0
      ∧ (setup F 1 (Matrix.fill 1 65536 0) ⟨65536, fun _ => 0⟩ ⟨1, fun _ => 1⟩
          0).n_values_per_task = 0 := by
  simp [setup, n_obs, n_groups, n_obs_per_task, n_values_per_task, Matrix.fill]

/-- C7 (amended): for `maxiters ≥ 1`, when on rank `r` the first bound does not fall
below the initial bound `-100000` (no regression in iteration 0) and `tol` is larger than
the first bound difference `bound - oldbound`, the rank returns from inside the loop
during iteration `k = 0`. -/
theorem C7_returns_in_iteration_zero {α : Type} [LinearOrderedField α] (F : Kernels α)
    (ntasks : Nat) (logl_full : Matrix α) (log_times_observed_full alpha0 : Vec α) (tol : α)
    (maxiters r : Nat) (hm : 1 ≤ maxiters)
    (hreg : ¬ (iter_main F ntasks alpha0
        (setup F ntasks logl_full log_times_observed_full alpha0) r).bound
      < (iter_main F ntasks alpha0
        (setup F ntasks logl_full log_times_observed_full alpha0) r).oldbound)
    (htol : (iter_main F ntasks alpha0
        (setup F ntasks logl_full log_times_observed_full alpha0) r).bound
      - (iter_main F ntasks alpha0
        (setup F ntasks logl_full log_times_observed_full alpha0) r).oldbound < tol) :
    (iter_main F ntasks alpha0
        (setup F ntasks logl_full log_times_observed_full alpha0) r).oldbound = -100000
      ∧ (rcg_optl_mpi F ntasks logl_full log_times_observed_full alpha0 tol maxiters
          r).returned = some 0 :=
  ⟨rfl, returned_at_zero F ntasks logl_full log_times_observed_full alpha0 tol maxiters r hm
    hreg htol⟩

/-- C7 (amended), at a concrete input: one group, one observation with `logl = 0`,
one rank, `tol = 200000`, `maxiters = 1`; the first bound is `γ - 1` with `γ` the
Euler-Mascheroni constant. -/
theorem C7_returns_in_iteration_zero_witness :
    (1 ≤ 1
      ∧ ¬ (iter_main (kernelsOf Real.exp Real.log Real.Gamma (deriv Real.Gamma)) 1
          ⟨1, fun _ => 1⟩
          (setup (kernelsOf Real.exp Real.log Real.Gamma (deriv Real.Gamma)) 1
            ⟨1, 1, fun _ => 0⟩ ⟨1, fun _ => 0⟩ ⟨1, fun _ => 1⟩) 0).bound
        < (iter_main (kernelsOf Real.exp Real.log Real.Gamma (deriv Real.Gamma)) 1
          ⟨1, fun _ => 1⟩
          (setup (kernelsOf Real.exp Real.log Real.Gamma (deriv Real.Gamma)) 1
            ⟨1, 1, fun _ => 0⟩ ⟨1, fun _ => 0⟩ ⟨1, fun _ => 1⟩) 0).oldbound
      ∧ (iter_main (kernelsOf Real.exp Real.log Real.Gamma (deriv Real.Gamma)) 1
          ⟨1, fun _ => 1⟩
          (setup (kernelsOf Real.exp Real.log Real.Gamma (deriv Real.Gamma)) 1
            ⟨1, 1, fun _ => 0⟩ ⟨1, fun _ => 0⟩ ⟨1, fun _ => 1⟩) 0).bound
        - (iter_main (kernelsOf Real.exp Real.log Real.Gamma (deriv Real.Gamma)) 1
          ⟨1, fun _ => 1⟩
          (setup (kernelsOf Real.exp Real.log Real.Gamma (deriv Real.Gamma)) 1
            ⟨1, 1, fun _ => 0⟩ ⟨1, fun _ => 0⟩ ⟨1, fun _ => 1⟩) 0).oldbound < 200000)
      ∧ ((iter_main (kernelsOf Real.exp Real.log Real.Gamma (deriv Real.Gamma)) 1
          ⟨1, fun _ => 1⟩
          (setup (kernelsOf Real.exp Real.log Real.Gamma (deriv Real.Gamma)) 1
            ⟨1, 1, fun _ => 0⟩ ⟨1, fun _ => 0⟩ ⟨1, fun _ => 1⟩) 0).oldbound = -100000
        ∧ (rcg_optl_mpi (kernelsOf Real.exp Real.log Real.Gamma (deriv Real.Gamma)) 1
          ⟨1, 1, fun _ => 0⟩ ⟨1, fun _ => 0⟩ ⟨1, fun _ => 1⟩ 200000 1 0).returned = some 0) := by
  obtain ⟨h1, h2⟩ := k1_true_bound 0
  have hg := Real.one_half_lt_eulerMascheroniConstant
  have hg2 := Real.eulerMascheroniConstant_lt_two_thirds
  have hreg : ¬ (iter_main (kernelsOf Real.exp Real.log Real.Gamma (deriv Real.Gamma)) 1
          ⟨1, fun _ => 1⟩
          (setup (kernelsOf Real.exp Real.log Real.Gamma (deriv Real.Gamma)) 1
            ⟨1, 1, fun _ => 0⟩ ⟨1, fun _ => 0⟩ ⟨1, fun _ => 1⟩) 0).bound
        < (iter_main (kernelsOf Real.exp Real.log Real.Gamma (deriv Real.Gamma)) 1
          ⟨1, fun _ => 1⟩
          (setup (kernelsOf Real.exp Real.log Real.Gamma (deriv Real.Gamma)) 1
            ⟨1, 1, fun _ => 0⟩ ⟨1, fun _ => 0⟩ ⟨1, fun _ => 1⟩) 0).oldbound := by
    rw [h1, h2]; linarith
  have htol : (iter_main (kernelsOf Real.exp Real.log Real.Gamma (deriv Real.Gamma)) 1
          ⟨1, fun _ => 1⟩
          (setup (kernelsOf Real.exp Real.log Real.Gamma (deriv Real.Gamma)) 1
            ⟨1, 1, fun _ => 0⟩ ⟨1, fun _ => 0⟩ ⟨1, fun _ => 1⟩) 0).bound
        - (iter_main (kernelsOf Real.exp Real.log Real.Gamma (deriv Real.Gamma)) 1
          ⟨1, fun _ => 1⟩
          (setup (kernelsOf Real.exp Real.log Real.Gamma (deriv Real.Gamma)) 1
            ⟨1, 1, fun _ => 0⟩ ⟨1, fun _ => 0⟩ ⟨1, fun _ => 1⟩) 0).oldbound < 200000 := by
    rw [h1, h2]; linarith
  exact ⟨⟨Nat.le_refl 1, hreg, htol⟩,
    C7_returns_in_iteration_zero (kernelsOf Real.exp Real.log Real.Gamma (deriv Real.Gamma)) 1
      ⟨1, 1, fun _ => 0⟩ ⟨1, fun _ => 0⟩ ⟨1, fun _ => 1⟩ 200000 1 0 (Nat.le_refl 1) hreg htol⟩

/-- C7 as stated fails: one group, one observation with `logl = -200000`, one rank,
`alpha0 = [1]`, `maxiters = 2` and the very large `tol = 1000000`. The first bound is
`-200000 - (1 - γ)`, below the initial bound `-100000`, so the first bound difference is
below `tol`, but the regression sets `didreset` and the rank does not return during
iteration 0. -/
theorem C7_counterexample :
    1 ≤ 2
      ∧ (iter_main (kernelsOf Real.exp Real.log Real.Gamma (deriv Real.Gamma)) 1
          ⟨1, fun _ => 1⟩
          (setup (kernelsOf Real.exp Real.log Real.Gamma (deriv Real.Gamma)) 1
            ⟨1, 1, fun _ => -200000⟩ ⟨1, fun _ => 0⟩ ⟨1, fun _ => 1⟩) 0).bound
        - (iter_main (kernelsOf Real.exp Real.log Real.Gamma (deriv Real.Gamma)) 1
          ⟨1, fun _ => 1⟩
          (setup (kernelsOf Real.exp Real.log Real.Gamma (deriv Real.Gamma)) 1
            ⟨1, 1, fun _ => -200000⟩ ⟨1, fun _ => 0⟩ ⟨1, fun _ => 1⟩) 0).oldbound < 1000000
      ∧ (rcg_optl_mpi (kernelsOf Real.exp Real.log Real.Gamma (deriv Real.Gamma)) 1
          ⟨1, 1, fun _ => -200000⟩ ⟨1, fun _ => 0⟩ ⟨1, fun _ => 1⟩ 1000000 2 0).returned
        ≠ some 0 := by
  obtain ⟨h1, h2⟩ := k1_true_bound (-200000)
  have hg := Real.one_half_lt_eulerMascheroniConstant
  have hg2 := Real.eulerMascheroniConstant_lt_two_thirds
  refine ⟨by decide, by rw [h1, h2]; linarith, ?_⟩
  apply not_returned_at_zero
  rw [h1, h2]
  linarith

/-- C8: on every rank `r`, after setup and after any number `i` of passes through the
loop, and in the next pass after the recomputation of `N_k` on the main path (line 93)
and after the one of the revert branch (line 117), `N_k[k] ≥ alpha0[k]` for every
`k < K`, where `K = n_groups` is the broadcast group count. -/
theorem C8_N_k_ge_alpha0 (ψ lg : ℝ → ℝ) (cbc : Vec ℝ → Vec ℝ → ℝ) (ntasks : Nat)
    (logl_full : Matrix ℝ) (log_times_observed_full alpha0 : Vec ℝ) (tol : ℝ) (i r k : Nat)
    (hk : k < n_groups logl_full.rows) :
    alpha0.dat k ≤ (loop (Kernels.mk Real.exp Real.log ψ lg cbc) ntasks alpha0 tol i 0
        (setup (Kernels.mk Real.exp Real.log ψ lg cbc) ntasks logl_full
          log_times_observed_full alpha0) r).N_k.dat k
      ∧ alpha0.dat k ≤ (iter_main (Kernels.mk Real.exp Real.log ψ lg cbc) ntasks alpha0
        (loop (Kernels.mk Real.exp Real.log ψ lg cbc) ntasks alpha0 tol i 0
          (setup (Kernels.mk Real.exp Real.log ψ lg cbc) ntasks logl_full
            log_times_observed_full alpha0)) r).N_k.dat k
      ∧ alpha0.dat k ≤ (iter_revert (Kernels.mk Real.exp Real.log ψ lg cbc) ntasks alpha0
        (iter_main (Kernels.mk Real.exp Real.log ψ lg cbc) ntasks alpha0
          (loop (Kernels.mk Real.exp Real.log ψ lg cbc) ntasks alpha0 tol i 0
            (setup (Kernels.mk Real.exp Real.log ψ lg cbc) ntasks logl_full
              log_times_observed_full alpha0))) r).N_k.dat k := by
  have h0 := setup_NkBounded (Kernels.mk Real.exp Real.log ψ lg cbc) rfl ntasks logl_full
    log_times_observed_full alpha0
  have hi := loop_NkBounded (Kernels.mk Real.exp Real.log ψ lg cbc) rfl ntasks _ alpha0 tol
    i 0 _ h0
  have hm := iter_main_NkBounded (Kernels.mk Real.exp Real.log ψ lg cbc) rfl ntasks _ alpha0
    _ (fun q => (hi q).1)
  have hr := iter_revert_NkBounded (Kernels.mk Real.exp Real.log ψ lg cbc) rfl ntasks _
    alpha0 _ (fun q => (hm q).1)
  exact ⟨(hi r).2 k hk, (hm r).2 k hk, (hr r).2 k hk⟩

/-- C8, at a concrete input: two groups, two observations, two ranks, rank 1, `k = 1`,
after two passes. -/
theorem C8_N_k_ge_alpha0_witness :
    1 < n_groups 2
      ∧ ((1 : ℝ) ≤ (loop (Kernels.mk Real.exp Real.log (fun x => x) (fun x => x) (fun _ _ => 0))
          2 ⟨2, fun _ => 1⟩ 1 2 0
          (setup (Kernels.mk Real.exp Real.log (fun x => x) (fun x => x) (fun _ _ => 0)) 2
            ⟨2, 2, fun i => (i : ℝ)⟩ ⟨2, fun _ => 0⟩ ⟨2, fun _ => 1⟩) 1).N_k.dat 1
        ∧ (1 : ℝ) ≤ (iter_main
          (Kernels.mk Real.exp Real.log (fun x => x) (fun x => x) (fun _ _ => 0)) 2
          ⟨2, fun _ => 1⟩
          (loop (Kernels.mk Real.exp Real.log (fun x => x) (fun x => x) (fun _ _ => 0))
            2 ⟨2, fun _ => 1⟩ 1 2 0
            (setup (Kernels.mk Real.exp Real.log (fun x => x) (fun x => x) (fun _ _ => 0)) 2
              ⟨2, 2, fun i => (i : ℝ)⟩ ⟨2, fun _ => 0⟩ ⟨2, fun _ => 1⟩)) 1).N_k.dat 1
        ∧ (1 : ℝ) ≤ (iter_revert
          (Kernels.mk Real.exp Real.log (fun x => x) (fun x => x) (fun _ _ => 0)) 2
          ⟨2, fun _ => 1⟩
          (iter_main (Kernels.mk Real.exp Real.log (fun x => x) (fun x => x) (fun _ _ => 0)) 2
            ⟨2, fun _ => 1⟩
            (loop (Kernels.mk Real.exp Real.log (fun x => x) (fun x => x) (fun _ _ => 0))
              2 ⟨2, fun _ => 1⟩ 1 2 0
              (setup (Kernels.mk Real.exp Real.log (fun x => x) (fun x => x) (fun _ _ => 0)) 2
                ⟨2, 2, fun i => (i : ℝ)⟩ ⟨2, fun _ => 0⟩ ⟨2, fun _ => 1⟩))) 1).N_k.dat 1) :=
  ⟨by decide,
    C8_N_k_ge_alpha0 (fun x => x) (fun x => x) (fun _ _ => 0) 2 ⟨2, 2, fun i => (i : ℝ)⟩
      ⟨2, fun _ => 0⟩ ⟨2, fun _ => 1⟩ 1 2 1 1 (by decide)⟩

/-- C9 (checked at a failing input): with `K = 2`, `N = 2`, `P = 2`, `W = 1` and the
slabs `[0, 0]` on rank 0 and `[1, 1]` on rank 1, the gather puts the slab of rank `r`
into row `r` of rank 0's `gamma_Z`, so `logsumexp` normalizes each entry of rank 0
against an entry of rank 1: rank 0 is left with `-(1 + ln(exp(-1) + 1))` at `(0, 0)`,
where the normalization of its own slab gives `-ln 2`, and the exponentials of its
local column sum to `2 exp(-(1 + ln(exp(-1) + 1)))`, which is not 1. -/
theorem C9_cycle_mixes_slabs (ψ lg : ℝ → ℝ) (cbc : Vec ℝ → Vec ℝ → ℝ) :
    ( Rank.gamma_Z_partial (logsumexp_cycle (Kernels.mk Real.exp Real.log ψ lg cbc) 2
        (fun r => { setup (Kernels.mk Real.exp Real.log ψ lg cbc) 2 (Matrix.fill 2 2 0)
                      ⟨2, fun _ => 0⟩ ⟨2, fun _ => 1⟩ r with
                    gamma_Z_partial := ⟨2, 1, fun _ => (r : ℝ)⟩ }) 0)).get 0 0
        = -(1 + Real.log (Real.exp (-1) + 1))
      ∧ (logsumexp (Kernels.mk Real.exp Real.log ψ lg cbc) ⟨2, 1, fun _ => ((0 : Nat) : ℝ)⟩).get
          0 0 = -Real.log 2
      ∧ -(1 + Real.log (Real.exp (-1) + 1)) ≠ -Real.log 2
      ∧ ∑ k ∈ range 2, Real.exp (( Rank.gamma_Z_partial (logsumexp_cycle (Kernels.mk Real.exp Real.log ψ lg cbc) 2
        (fun r => { setup (Kernels.mk Real.exp Real.log ψ lg cbc) 2 (Matrix.fill 2 2 0)
                      ⟨2, fun _ => 0⟩ ⟨2, fun _ => 1⟩ r with
                    gamma_Z_partial := ⟨2, 1, fun _ => (r : ℝ)⟩ }) 0)).get k 0)
        ≠ 1 := by
  have hlog : 0 < Real.log (Real.exp (-1) + 1) :=
    Real.log_pos (by have := Real.exp_pos (-1); linarith)
  have hl2 : Real.log 2 < 1 := by
    have := Real.log_two_lt_d9; linarith
  have h1 : ∀ k, k < 2 →
      ( Rank.gamma_Z_partial (logsumexp_cycle (Kernels.mk Real.exp Real.log ψ lg cbc) 2
        (fun r => { setup (Kernels.mk Real.exp Real.log ψ lg cbc) 2 (Matrix.fill 2 2 0)
                      ⟨2, fun _ => 0⟩ ⟨2, fun _ => 1⟩ r with
                    gamma_Z_partial := ⟨2, 1, fun _ => (r : ℝ)⟩ }) 0)).get k 0
        = -(1 + Real.log (Real.exp (-1) + 1)) := by
    intro k hk
    interval_cases k <;>
      simp [logsumexp_cycle, gathered, logsumexp, colshift, colmax, maxUpTo, MPI_Scatter,
        MPI_Gather, Matrix.get, setup, n_groups, n_obs, n_obs_per_task, n_values_per_task,
        Matrix.fill, Finset.sum_range_succ]
  refine ⟨h1 0 (by norm_num), ?_, ?_, ?_⟩
  · simp [logsumexp, colshift, colmax, maxUpTo, Matrix.get, Finset.sum_range_succ]
  · intro h
    linarith
  · rw [Finset.sum_range_succ, Finset.sum_range_one, h1 0 (by norm_num), h1 1 (by norm_num)]
    intro h
    have h3 : Real.exp (-(1 + Real.log (Real.exp (-1) + 1))) < 1 / 2 := by
      have h4 : -(1 + Real.log (Real.exp (-1) + 1)) < -Real.log 2 := by linarith
      have h5 := Real.exp_lt_exp.mpr h4
      have h6 : Real.exp (-Real.log 2) = 1 / 2 := by
        rw [Real.exp_neg, Real.exp_log (by norm_num)]; norm_num
      rw [h6] at h5
      exact h5
    linarith

/-- C10 (amended): in a pass through the loop in which the bound of rank `r` regressed,
the revert sequence leaves in `gamma_Z_partial` of rank `r` its block of `logsumexp`
applied to the gathered sums `gamma_Z_partial + step_partial`, with `gamma_Z_partial` as
it was at the start of the pass and `step_partial` as `mixt_negnatgrad` computed it in
this pass: the momentum term `beta_FR * oldstep_partial` is undone, the gradient step is
kept (for `P` dividing `N` and `N/P < 2^16`). -/
theorem C10_revert_keeps_gradient_step {α : Type} [LinearOrderedField α] (F : Kernels α)
    (ntasks : Nat) (logl_full : Matrix α) (log_times_observed_full alpha0 : Vec α) (tol : α)
    (i r l : Nat)
    (hdiv : ntasks * (n_obs log_times_observed_full.size / ntasks)
      = n_obs log_times_observed_full.size)
    (hW : n_obs log_times_observed_full.size / ntasks < 65536) (hr : r < ntasks)
    (hl : l < n_groups logl_full.rows * (n_obs log_times_observed_full.size / ntasks))
    (hreg : (iter_main F ntasks alpha0 (loop F ntasks alpha0 tol i 0
          (setup F ntasks logl_full log_times_observed_full alpha0)) r).bound
      < (iter_main F ntasks alpha0 (loop F ntasks alpha0 tol i 0
          (setup F ntasks logl_full log_times_observed_full alpha0)) r).oldbound) :
    ( Rank.gamma_Z_partial (iteration F ntasks alpha0 (loop F ntasks alpha0 tol i 0
        (setup F ntasks logl_full log_times_observed_full alpha0)) r)).mat l
      = (logsumexp F (gathered ntasks (grad_step F (loop F ntasks alpha0 tol i 0
          (setup F ntasks logl_full log_times_observed_full alpha0))))).mat
          (r * (n_groups logl_full.rows * (n_obs log_times_observed_full.size / ntasks))
            + l) :=
  iteration_regressed_mat F ntasks _ _ alpha0 _
    (loop_Shaped F ntasks _ _ alpha0 tol i 0 _
      (setup_Shaped F ntasks logl_full log_times_observed_full alpha0 hdiv hW)) hr hl hreg

/-- C10 (amended), at a concrete input: two groups, two observations, one rank,
`logl_full = [[-100000, -100002], [-100002, -100000]]`, first pass, entry 0 of rank 0. -/
theorem C10_revert_keeps_gradient_step_witness :
    (1 * (n_obs 2 / 1) = n_obs 2 ∧ n_obs 2 / 1 < 65536 ∧ 0 < 1 ∧ 0 < n_groups 2 * (n_obs 2 / 1)
      ∧ (iter_main (kernelsOf Real.exp Real.log Real.Gamma (deriv Real.Gamma)) 1
          ⟨2, fun _ => 1⟩
          (loop (kernelsOf Real.exp Real.log Real.Gamma (deriv Real.Gamma)) 1 ⟨2, fun _ => 1⟩
            1 0 0
            (setup (kernelsOf Real.exp Real.log Real.Gamma (deriv Real.Gamma)) 1
              ⟨2, 2, fun i => if i = 0 ∨ i = 3 then -100000 else -100002⟩ ⟨2, fun _ => 0⟩
              ⟨2, fun _ => 1⟩)) 0).bound
        < (iter_main (kernelsOf Real.exp Real.log Real.Gamma (deriv Real.Gamma)) 1
          ⟨2, fun _ => 1⟩
          (loop (kernelsOf Real.exp Real.log Real.Gamma (deriv Real.Gamma)) 1 ⟨2, fun _ => 1⟩
            1 0 0
            (setup (kernelsOf Real.exp Real.log Real.Gamma (deriv Real.Gamma)) 1
              ⟨2, 2, fun i => if i = 0 ∨ i = 3 then -100000 else -100002⟩ ⟨2, fun _ => 0⟩
              ⟨2, fun _ => 1⟩)) 0).oldbound)
      ∧ ( Rank.gamma_Z_partial (iteration
          (kernelsOf Real.exp Real.log Real.Gamma (deriv Real.Gamma)) 1 ⟨2, fun _ => 1⟩
          (loop (kernelsOf Real.exp Real.log Real.Gamma (deriv Real.Gamma)) 1 ⟨2, fun _ => 1⟩
            1 0 0
            (setup (kernelsOf Real.exp Real.log Real.Gamma (deriv Real.Gamma)) 1
              ⟨2, 2, fun i => if i = 0 ∨ i = 3 then -100000 else -100002⟩ ⟨2, fun _ => 0⟩
              ⟨2, fun _ => 1⟩)) 0)).mat 0
        = (logsumexp (kernelsOf Real.exp Real.log Real.Gamma (deriv Real.Gamma))
            (gathered 1 (grad_step (kernelsOf Real.exp Real.log Real.Gamma (deriv Real.Gamma))
              (loop (kernelsOf Real.exp Real.log Real.Gamma (deriv Real.Gamma)) 1
                ⟨2, fun _ => 1⟩ 1 0 0
                (setup (kernelsOf Real.exp Real.log Real.Gamma (deriv Real.Gamma)) 1
                  ⟨2, 2, fun i => if i = 0 ∨ i = 3 then -100000 else -100002⟩ ⟨2, fun _ => 0⟩
                  ⟨2, fun _ => 1⟩))))).mat (0 * (n_groups 2 * (n_obs 2 / 1)) + 0) :=
  ⟨⟨by decide, by decide, by decide, by decide, e1_true_regressed⟩,
    C10_revert_keeps_gradient_step (kernelsOf Real.exp Real.log Real.Gamma (deriv Real.Gamma)) 1
      ⟨2, 2, fun i => if i = 0 ∨ i = 3 then -100000 else -100002⟩ ⟨2, fun _ => 0⟩
      ⟨2, fun _ => 1⟩ 1 0 0 0 (by decide) (by decide) (by decide) (by decide)
      e1_true_regressed⟩

/-- C10 as stated fails: two groups, two observations, one rank,
`logl_full = [[-100000, -100002], [-100002, -100000]]`, `log_times_observed_full = [0, 0]`,
`alpha0 = [1, 1]`. In the first pass the bound regresses below the initial `-100000`, and
after the revert sequence `gamma_Z_partial(0, 0)` is `-ln(1 + exp(-2))`, not the value
`ln(1/2)` it had at the start of the pass. -/
theorem C10_counterexample :
    (iter_main (kernelsOf Real.exp Real.log Real.Gamma (deriv Real.Gamma)) 1 ⟨2, fun _ => 1⟩
        (setup (kernelsOf Real.exp Real.log Real.Gamma (deriv Real.Gamma)) 1
          ⟨2, 2, fun i => if i = 0 ∨ i = 3 then -100000 else -100002⟩ ⟨2, fun _ => 0⟩
          ⟨2, fun _ => 1⟩) 0).bound
      < (iter_main (kernelsOf Real.exp Real.log Real.Gamma (deriv Real.Gamma)) 1
        ⟨2, fun _ => 1⟩
        (setup (kernelsOf Real.exp Real.log Real.Gamma (deriv Real.Gamma)) 1
          ⟨2, 2, fun i => if i = 0 ∨ i = 3 then -100000 else -100002⟩ ⟨2, fun _ => 0⟩
          ⟨2, fun _ => 1⟩) 0).oldbound
    ∧ Matrix.get ( Rank.gamma_Z_partial (iteration
        (kernelsOf Real.exp Real.log Real.Gamma (deriv Real.Gamma)) 1 ⟨2, fun _ => 1⟩
        (setup (kernelsOf Real.exp Real.log Real.Gamma (deriv Real.Gamma)) 1
          ⟨2, 2, fun i => if i = 0 ∨ i = 3 then -100000 else -100002⟩ ⟨2, fun _ => 0⟩
          ⟨2, fun _ => 1⟩) 0)) 0 0 = -Real.log (1 + Real.exp (-2))
    ∧ Matrix.get ( Rank.gamma_Z_partial
        (setup (kernelsOf Real.exp Real.log Real.Gamma (deriv Real.Gamma)) 1
          ⟨2, 2, fun i => if i = 0 ∨ i = 3 then -100000 else -100002⟩ ⟨2, fun _ => 0⟩
          ⟨2, fun _ => 1⟩ 0)) 0 0 = Real.log (1 / 2)
    ∧ Matrix.get ( Rank.gamma_Z_partial (iteration
        (kernelsOf Real.exp Real.log Real.Gamma (deriv Real.Gamma)) 1 ⟨2, fun _ => 1⟩
        (setup (kernelsOf Real.exp Real.log Real.Gamma (deriv Real.Gamma)) 1
          ⟨2, 2, fun i => if i = 0 ∨ i = 3 then -100000 else -100002⟩ ⟨2, fun _ => 0⟩
          ⟨2, fun _ => 1⟩) 0)) 0 0
      ≠ Matrix.get ( Rank.gamma_Z_partial
        (setup (kernelsOf Real.exp Real.log Real.Gamma (deriv Real.Gamma)) 1
          ⟨2, 2, fun i => if i = 0 ∨ i = 3 then -100000 else -100002⟩ ⟨2, fun _ => 0⟩
          ⟨2, fun _ => 1⟩ 0)) 0 0 := by
  have h1 : Matrix.get ( Rank.gamma_Z_partial (iteration
        (kernelsOf Real.exp Real.log Real.Gamma (deriv Real.Gamma)) 1 ⟨2, fun _ => 1⟩
        (setup (kernelsOf Real.exp Real.log Real.Gamma (deriv Real.Gamma)) 1
          ⟨2, 2, fun i => if i = 0 ∨ i = 3 then -100000 else -100002⟩ ⟨2, fun _ => 0⟩
          ⟨2, fun _ => 1⟩) 0)) 0 0 = -Real.log (1 + Real.exp (-2)) := by
    simp only [Matrix.get, Nat.zero_mul, Nat.add_zero]
    rw [iteration_regressed_mat _ 1 2 2 ⟨2, fun _ => 1⟩ _ (e1_Shaped _) (r := 0) (l := 0)
      (by decide) (by decide) e1_true_regressed, Nat.zero_mul, Nat.zero_add,
      e1_logsumexp _ rfl rfl 0 (by decide)]
    simp
  have h2 : Matrix.get ( Rank.gamma_Z_partial
        (setup (kernelsOf Real.exp Real.log Real.Gamma (deriv Real.Gamma)) 1
          ⟨2, 2, fun i => if i = 0 ∨ i = 3 then -100000 else -100002⟩ ⟨2, fun _ => 0⟩
          ⟨2, fun _ => 1⟩ 0)) 0 0 = Real.log (1 / 2) := by
    simp [Matrix.get, setup, Matrix.fill, kernelsOf, n_groups]
  refine ⟨e1_true_regressed, h1, h2, ?_⟩
  rw [h1, h2]
  have hu := log_one_add_exp_lt
  have h3 : Real.log (1 / 2) = -Real.log 2 := by
    rw [one_div, Real.log_inv]
  rw [h3]
  intro h
  linarith

end Claims

end RcgMpi
